import Mathlib

/-!
Verification development for the memo_bot backend.

The definitions below are a shallow embedding of the Python sources:
`backend/profile_card.py` (profile data model, confidence merge engine,
update validator), `backend/llm_integration.py` (per-update validation in
the background profile-update handler), `backend/firestore_store.py`
(slug-keyed memory upsert), `backend/firestore.py` (episodic-memory
consolidation) and `backend/episodic_memory.py` (episode search
formatting).

Modelling conventions:
- Python floats are modelled as exact rationals (`ℚ`); Python ints as `ℤ`
  or `ℕ` where the sign is fixed by construction.
- Python `dict`s are modelled as insertion-ordered association lists with
  unique keys maintained by the update operation (`aset` overwrites in
  place, otherwise appends — exactly the observable behaviour of a Python
  dict).
- Code that can raise (`TypeError` on non-numeric arithmetic,
  `ZeroDivisionError`, `IndexError` on list indexing) is modelled with
  `Option`: `none` means the Python code raises at that point.
- Impure reads of the current time (`time.time()`) become an explicit
  `now : ℚ` parameter.
-/

namespace MemoBot

/-! ## Association lists standing for Python dicts -/

/-- Python `d[k]` / `d.get(k)`: first (and by construction only) binding. -/
def alookup {α : Type} (d : List (String × α)) (k : String) : Option α :=
  match d with
  | [] => none
  | (k', v) :: rest => if k' = k then some v else alookup rest k

/-- Python `k in d`. -/
def amem {α : Type} (d : List (String × α)) (k : String) : Bool :=
  (alookup d k).isSome

/-- Python `d[k] = v`: overwrite in place if the key exists, else append.
This is exactly the observable insertion-order behaviour of a dict. -/
def aset {α : Type} (d : List (String × α)) (k : String) (v : α) :
    List (String × α) :=
  match d with
  | [] => [(k, v)]
  | (k', v') :: rest =>
    if k' = k then (k', v) :: rest else (k', v') :: aset rest k v

theorem alookup_aset_self {α : Type} (d : List (String × α)) (k : String)
    (v : α) : alookup (aset d k v) k = some v := by
  induction d with
  | nil => simp [aset, alookup]
  | cons hd tl ih =>
    obtain ⟨k', v'⟩ := hd
    by_cases h : k' = k <;> simp [aset, alookup, h, ih]

theorem alookup_aset_ne {α : Type} (d : List (String × α)) (k k' : String)
    (v : α) (h : k ≠ k') : alookup (aset d k v) k' = alookup d k' := by
  induction d with
  | nil => simp [aset, alookup, h]
  | cons hd tl ih =>
    obtain ⟨k₀, v₀⟩ := hd
    by_cases h₀ : k₀ = k
    · subst h₀; simp [aset, alookup, h]
    · simp only [aset, if_neg h₀, alookup]
      by_cases h₁ : k₀ = k' <;> simp [h₁, ih]

/-- `aset` either keeps the key list unchanged or appends the new key. -/
theorem keys_aset {α : Type} (d : List (String × α)) (k : String) (v : α) :
    (aset d k v).map Prod.fst =
      (if amem d k then d.map Prod.fst else d.map Prod.fst ++ [k]) := by
  induction d with
  | nil => simp [aset, amem, alookup]
  | cons hd tl ih =>
    obtain ⟨k₀, v₀⟩ := hd
    by_cases h : k₀ = k
    · subst h; simp [aset, amem, alookup]
    · simp only [aset, if_neg h, List.map_cons, amem, alookup, if_neg h]
      rw [show amem tl k = (alookup tl k).isSome from rfl] at ih
      by_cases hm : (alookup tl k).isSome <;> simp [hm, amem] at ih ⊢ <;>
        simp [ih]

theorem amem_aset {α : Type} (d : List (String × α)) (k k' : String)
    (v : α) : amem (aset d k v) k' = (amem d k' || (k == k')) := by
  by_cases h : k = k'
  · subst h; simp [amem, alookup_aset_self]
  · simp [amem, alookup_aset_ne d k k' v h, h]

/-! ## The Python value universe stored inside a profile field dict -/

/-- One element of a field's `reasons` log:
`{"reason": ..., "confidence": ..., "timestamp": ...}`. -/
structure Reason where
  reason : String
  confidence : ℚ
  timestamp : ℚ
  deriving DecidableEq, Repr

/-- Values that occur inside a profile field dict: strings (`value`),
numbers (`confidence`, `count`), the reasons log, and nested entry dicts
(the values of set-field fact-keys). -/
inductive PyVal where
  | pStr : String → PyVal
  | pNum : ℚ → PyVal
  | pReasons : List Reason → PyVal
  | pDict : List (String × PyVal) → PyVal
  deriving Repr

/-- A profile field, as stored: a Python dict.  A scalar field carries
`value`/`confidence`/`count`/`reasons` keys; a set field maps fact-keys to
entry dicts and has no `value` key. -/
abbrev PDict := List (String × PyVal)

mutual

def PyVal.beq : PyVal → PyVal → Bool
  | .pStr a, .pStr b => a == b
  | .pNum a, .pNum b => a == b
  | .pReasons a, .pReasons b => a == b
  | .pDict a, .pDict b => PyVal.beqList a b
  | _, _ => false

def PyVal.beqList : List (String × PyVal) → List (String × PyVal) → Bool
  | [], [] => true
  | (k, v) :: xs, (k', v') :: ys =>
    k == k' && PyVal.beq v v' && PyVal.beqList xs ys
  | _, _ => false

end

mutual

theorem PyVal.beq_iff : ∀ a b : PyVal, PyVal.beq a b = true ↔ a = b
  | .pStr a, .pStr b => by simp [PyVal.beq]
  | .pNum a, .pNum b => by simp [PyVal.beq]
  | .pReasons a, .pReasons b => by simp [PyVal.beq]
  | .pDict a, .pDict b => by
    simp only [PyVal.beq]
    rw [PyVal.beqList_iff a b]
    constructor
    · intro h; rw [h]
    · intro h; injection h
  | .pStr a, .pNum b => by simp [PyVal.beq]
  | .pStr a, .pReasons b => by simp [PyVal.beq]
  | .pStr a, .pDict b => by simp [PyVal.beq]
  | .pNum a, .pStr b => by simp [PyVal.beq]
  | .pNum a, .pReasons b => by simp [PyVal.beq]
  | .pNum a, .pDict b => by simp [PyVal.beq]
  | .pReasons a, .pStr b => by simp [PyVal.beq]
  | .pReasons a, .pNum b => by simp [PyVal.beq]
  | .pReasons a, .pDict b => by simp [PyVal.beq]
  | .pDict a, .pStr b => by simp [PyVal.beq]
  | .pDict a, .pNum b => by simp [PyVal.beq]
  | .pDict a, .pReasons b => by simp [PyVal.beq]

theorem PyVal.beqList_iff :
    ∀ a b : List (String × PyVal), PyVal.beqList a b = true ↔ a = b
  | [], [] => by simp [PyVal.beqList]
  | (k, v) :: xs, (k', v') :: ys => by
    simp only [PyVal.beqList, Bool.and_eq_true, beq_iff_eq]
    rw [PyVal.beq_iff v v', PyVal.beqList_iff xs ys]
    constructor
    · rintro ⟨⟨rfl, rfl⟩, rfl⟩; rfl
    · intro h
      injection h with h1 h2
      injection h1 with hk hv
      exact ⟨⟨hk, hv⟩, h2⟩
  | [], (k', v') :: ys => by simp [PyVal.beqList]
  | (k, v) :: xs, [] => by simp [PyVal.beqList]

end

instance : DecidableEq PyVal := fun a b =>
  decidable_of_iff (PyVal.beq a b = true) (PyVal.beq_iff a b)

/-! ## Profile card data model (`profile_card.py`) -/

/-- A section: field name → field dict. -/
abbrev SectionDict := List (String × PDict)

/-- `ProfileCard` dataclass from `profile_card.py`. -/
structure ProfileCard where
  id : String
  user_id : String
  version : ℤ
  sections : List (String × SectionDict)
  metadata : PDict
  deriving DecidableEq, Repr

/-- A proposed update, as consumed by `update_profile_with_confidence`:
`{"section": ..., "field": ..., "value": ..., "confidence": ...,
"reason": ...}`.  (`sect` stands for the Python key `"section"`, a Lean
keyword.) -/
structure ProposedUpdate where
  sect : String
  field : String
  value : String
  confidence : ℚ
  reason : String
  deriving DecidableEq, Repr

/-- An empty scalar field `{"value": "", "confidence": 0.0, "count": 0,
"reasons": []}` as used by `create_default_profile_card`. -/
def emptyScalar : PDict :=
  [("value", .pStr ""), ("confidence", .pNum 0), ("count", .pNum 0),
   ("reasons", .pReasons [])]

/-- `create_default_profile_card` from `profile_card.py` (the impure
`time.time()` calls for the metadata become the `now` parameter). -/
def create_default_profile_card (now : ℚ) (user_id : String) :
    ProfileCard where
  id := "profile_card"
  user_id := user_id
  version := 1
  sections :=
    [("demographics",
       [("name", emptyScalar), ("age", emptyScalar),
        ("gender", emptyScalar), ("location", emptyScalar)]),
     ("interests",
       [("primary_interests", []), ("secondary_interests", [])]),
     ("preferences",
       [("favorite_animals", []), ("favorite_foods", []),
        ("favorite_colors", []), ("favorite_activities", [])]),
     ("constraints",
       [("safety_limits", []), ("schedule_limits", []),
        ("health_limits", [])]),
     ("goals",
       [("learning_goals", []), ("personal_goals", [])]),
     ("context",
       [("recent_events", []), ("current_projects", [])]),
     ("communication",
       [("style", emptyScalar), ("learning_level", emptyScalar),
        ("attention_span", emptyScalar),
        ("language_preference",
          [("value", .pStr "English"), ("confidence", .pNum (95/100)),
           ("count", .pNum 1), ("reasons", .pReasons [])])])]
  metadata :=
    [("created_at", .pNum now), ("updated_at", .pNum now),
     ("last_consolidated", .pNum now), ("total_facts", .pNum 0)]

/-- Python numeric read: `some q` when the value is a number, `none`
(a `TypeError` once used in arithmetic) otherwise. -/
def asNum : PyVal → Option ℚ
  | .pNum q => some q
  | _ => none

/-- `current.get(k, dflt)` followed by use as a number. -/
def getNum (d : PDict) (k : String) (dflt : ℚ) : Option ℚ :=
  match alookup d k with
  | none => some dflt
  | some v => asNum v

/-- Line 264-265 of `profile_card.py`: `if "reasons" not in current:
current["reasons"] = []`. -/
def withReasons (current : PDict) : PDict :=
  if amem current "reasons" then current
  else aset current "reasons" (.pReasons [])

/-- Lines 264-270 of `profile_card.py`: ensure `current["reasons"]`
exists, then append `{"reason": ..., "confidence": ..., "timestamp":
time.time()}`.  `none` when a present `reasons` value is not a list
(Python `AttributeError` on `.append`). -/
def appendReason (now : ℚ) (current : PDict) (u : ProposedUpdate) :
    Option PDict :=
  match alookup (withReasons current) "reasons" with
  | some (.pReasons rs) =>
    some (aset (withReasons current) "reasons"
      (.pReasons (rs ++ [⟨u.reason, u.confidence, now⟩])))
  | _ => none

/-- The body of the `for update in updates` loop of
`update_profile_with_confidence` (lines 238-270 of `profile_card.py`),
acting on the `sections` mapping.  An update whose `(section, field)` pair
is not present leaves the sections untouched. -/
def applyUpdate (now : ℚ) (sections : List (String × SectionDict))
    (u : ProposedUpdate) : Option (List (String × SectionDict)) :=
  match alookup sections u.sect with
  | none => some sections
  | some secDict =>
    match alookup secDict u.field with
    | none => some sections
    | some current =>
      -- current["count"] = current.get("count", 0) + 1
      (getNum current "count" 0).bind fun c0 =>
        let current := aset current "count" (.pNum (c0 + 1))
        -- old_confidence = current.get("confidence", 0)
        (getNum current "confidence" 0).bind fun oldConf =>
          -- old_count = current.get("count", 1)  (reads the value just written)
          (getNum current "count" 1).bind fun oldCount =>
            -- new_avg = (old_conf * old_count + new_conf) / (old_count + 1)
            if oldCount + 1 = 0 then none
            else
              let newAvg := (oldConf * oldCount + u.confidence) /
                (oldCount + 1)
              let current := aset current "confidence" (.pNum newAvg)
              -- if new_confidence > old_confidence + 0.1:
              --     current["value"] = value
              let current :=
                if u.confidence > oldConf + 1/10 then
                  aset current "value" (.pStr u.value)
                else current
              (appendReason now current u).bind fun current =>
                some (aset sections u.sect (aset secDict u.field current))

/-- The full update loop, threading the sections through the batch. -/
def mergeSections (now : ℚ) (sections : List (String × SectionDict)) :
    List ProposedUpdate → Option (List (String × SectionDict))
  | [] => some sections
  | u :: rest =>
    (applyUpdate now sections u).bind fun sections' =>
      mergeSections now sections' rest

/-- `update_profile_with_confidence` from `profile_card.py`: apply every
update in the batch, then increment `version` by one.  `none` models a
Python exception escaping the loop (in which case the version line is
never reached). -/
def update_profile_with_confidence (now : ℚ) (profile : ProfileCard)
    (updates : List ProposedUpdate) : Option ProfileCard :=
  (mergeSections now profile.sections updates).map fun s =>
    { profile with sections := s, version := profile.version + 1 }

/-- Python `stored == proposed` where the proposed value is a string:
only a stored string can compare equal. -/
def pyEqStr (v : PyVal) (s : String) : Bool :=
  match v with
  | .pStr t => t == s
  | _ => false

/-- Decision taken by the loop body of `validate_updates` (lines 282-300
of `profile_card.py`): `true` when the update is appended to `validated`,
`false` when the `continue` branch drops it as a duplicate. -/
def keepUpdate (profile : ProfileCard) (u : ProposedUpdate) : Bool :=
  match alookup profile.sections u.sect with
  | none => true
  | some secDict =>
    match alookup secDict u.field with
    | none => true
    | some current =>
      match alookup current "value" with
      | some v => !(pyEqStr v u.value)
      | none => !(amem current u.value)

/-- `validate_updates` from `profile_card.py`. -/
def validate_updates (updates : List ProposedUpdate)
    (profile : ProfileCard) : List ProposedUpdate :=
  updates.filter (keepUpdate profile)

/-- Look up the field dict at a `(section, field)` pair. -/
def lookupField (sections : List (String × SectionDict)) (s f : String) :
    Option PDict :=
  (alookup sections s).bind fun secDict => alookup secDict f

/-- `true` when the `(section, field)` pair of an update exists in the
profile schema (the membership test on line 245 of `profile_card.py`). -/
def knownPair (sections : List (String × SectionDict))
    (u : ProposedUpdate) : Bool :=
  (lookupField sections u.sect u.field).isSome

/-! ## Per-update validation in `handle_profile_updates_background`
(`llm_integration.py`, lines 329-357) -/

/-- The `confidence` entry of a raw update: absent, present but not
convertible by `float(...)`, or a number. -/
inductive RawConfidence where
  | missing
  | nonNumeric
  | num (q : ℚ)
  deriving DecidableEq, Repr

/-- A raw update dict as delivered by the LLM function call: each
required key may be absent. -/
structure RawUpdate where
  sect : Option String
  field : Option String
  value : Option String
  confidence : RawConfidence
  reason : Option String
  deriving DecidableEq, Repr

/-- An element of the raw `updates` list: either not a dict at all, or a
raw update dict. -/
inductive RawItem where
  | notDict
  | upd (u : RawUpdate)
  deriving DecidableEq, Repr

/-- The `valid_sections` list of `llm_integration.py` line 352. -/
def validSections : List String :=
  ["demographics", "interests", "preferences", "constraints", "goals",
   "context", "communication"]

/-- One pass of the per-update validation loop: `none` when the update is
skipped (non-dict, incomplete, non-numeric confidence, out-of-range
confidence, or unknown section), `some` the coerced update otherwise. -/
def parseUpdate : RawItem → Option ProposedUpdate
  | .notDict => none
  | .upd u =>
    match u.sect, u.field, u.value, u.reason, u.confidence with
    | some s, some f, some v, some r, .num c =>
      if 0 ≤ c ∧ c ≤ 1 then
        if s ∈ validSections then some ⟨s, f, v, c, r⟩ else none
      else none
    | _, _, _, _, _ => none

/-- The `valid_updates` accumulator of
`handle_profile_updates_background`: every raw item is validated
individually, survivors kept in order. -/
def filterValidUpdates (items : List RawItem) : List ProposedUpdate :=
  items.filterMap parseUpdate

/-! ## Characterisation lemmas for the merge loop -/

theorem getNum_aset_ne (d : PDict) (k k' : String) (v : PyVal) (dflt : ℚ)
    (h : k ≠ k') : getNum (aset d k v) k' dflt = getNum d k' dflt := by
  unfold getNum
  rw [alookup_aset_ne d k k' v h]

/-- An update whose `(section, field)` pair is unknown leaves the
sections untouched and raises nothing. -/
theorem applyUpdate_unknown (now : ℚ)
    (secs : List (String × SectionDict)) (u : ProposedUpdate)
    (h : lookupField secs u.sect u.field = none) :
    applyUpdate now secs u = some secs := by
  unfold lookupField at h
  unfold applyUpdate
  split
  · rfl
  · rename_i secD hs
    rw [hs] at h
    simp only [Option.some_bind] at h
    split
    · rfl
    · rename_i cur hf
      rw [h] at hf
      cases hf

/-- Structure of a successful update application: either the pair was
unknown and nothing changed, or exactly the targeted field dict was
rewritten. -/
theorem applyUpdate_some_form (now : ℚ)
    (secs : List (String × SectionDict)) (u : ProposedUpdate)
    (secs' : List (String × SectionDict))
    (h : applyUpdate now secs u = some secs') :
    secs' = secs ∨
    ∃ secD cur cur', alookup secs u.sect = some secD ∧
      alookup secD u.field = some cur ∧
      secs' = aset secs u.sect (aset secD u.field cur') := by
  unfold applyUpdate at h
  split at h
  · exact Or.inl (Option.some_injective _ h).symm
  · rename_i secD hs
    split at h
    · exact Or.inl (Option.some_injective _ h).symm
    · rename_i cur hf
      rw [Option.bind_eq_some] at h
      obtain ⟨c0, hc0, h⟩ := h
      rw [Option.bind_eq_some] at h
      obtain ⟨oldConf, hcf, h⟩ := h
      rw [Option.bind_eq_some] at h
      obtain ⟨oldCount, hct, h⟩ := h
      split at h
      · cases h
      · rw [Option.bind_eq_some] at h
        obtain ⟨cur', har, h⟩ := h
        exact Or.inr ⟨secD, cur, cur', hs, hf,
          (Option.some_injective _ h).symm⟩

/-- A successful update application changes no field entry other than the
one the update names. -/
theorem applyUpdate_frame (now : ℚ)
    (secs : List (String × SectionDict)) (u : ProposedUpdate)
    (secs' : List (String × SectionDict))
    (h : applyUpdate now secs u = some secs')
    (s f : String) (hne : ¬(u.sect = s ∧ u.field = f)) :
    lookupField secs' s f = lookupField secs s f := by
  rcases applyUpdate_some_form now secs u secs' h with rfl |
    ⟨secD, cur, cur', hs, hf, rfl⟩
  · rfl
  · unfold lookupField
    by_cases hsec : u.sect = s
    · subst hsec
      rw [alookup_aset_self, hs]
      have hfne : u.field ≠ f := fun hf' => hne ⟨rfl, hf'⟩
      simp only [Option.some_bind]
      exact alookup_aset_ne secD u.field f cur' hfne
    · rw [alookup_aset_ne secs u.sect s _ hsec]

/-- A successful update application never creates or deletes a
`(section, field)` pair. -/
theorem applyUpdate_shape (now : ℚ)
    (secs : List (String × SectionDict)) (u : ProposedUpdate)
    (secs' : List (String × SectionDict))
    (h : applyUpdate now secs u = some secs') (s f : String) :
    (lookupField secs' s f).isSome = (lookupField secs s f).isSome := by
  rcases applyUpdate_some_form now secs u secs' h with rfl |
    ⟨secD, cur, cur', hs, hf, rfl⟩
  · rfl
  · by_cases hsec : u.sect = s
    · subst hsec
      by_cases hfld : u.field = f
      · subst hfld
        unfold lookupField
        rw [alookup_aset_self, hs]
        simp [alookup_aset_self, hf]
      · rw [applyUpdate_frame now secs u _ h u.sect f
          (fun hc => hfld hc.2)]
    · rw [applyUpdate_frame now secs u _ h s f (fun hc => hsec hc.1)]

/-! ## Concrete fixtures used by the claim theorems -/

/-- The default profile for user `"u"` at time `0`. -/
def defaultProfile : ProfileCard := create_default_profile_card 0 "u"

/-- A `name` field holding `"Alex"` at confidence `0.80` with count `1`
(the state the spec's averaging law quantifies over with a non-zero prior
count). -/
def nameAt80 : PDict :=
  [("value", .pStr "Alex"), ("confidence", .pNum (4/5)),
   ("count", .pNum 1), ("reasons", .pReasons [])]

/-- A profile whose `demographics.name` field is `nameAt80`. -/
def profileCount1 : ProfileCard :=
  ⟨"profile_card", "u", 1, [("demographics", [("name", nameAt80)])], []⟩

/-- A `favorite_animals` set field already holding the fact-key
`"triceratops"`. -/
def animalsField : PDict :=
  [("triceratops",
    .pDict [("confidence", .pNum (19/20)), ("count", .pNum 3),
            ("reasons", .pReasons [])])]

/-- A profile whose `preferences.favorite_animals` set field is
`animalsField`. -/
def profileAnimals : ProfileCard :=
  ⟨"profile_card", "u", 1,
   [("preferences", [("favorite_animals", animalsField)])], []⟩

/-- Read the merged confidence of a field after one merge call. -/
def confidenceAfter (p : ProfileCard) (u : ProposedUpdate) :
    Option PyVal :=
  (update_profile_with_confidence 0 p [u]).bind fun q =>
    (lookupField q.sections u.sect u.field).bind fun d =>
      alookup d "confidence"

/-- The state of `defaultProfile` after merging one `name` update at
confidence `0.80`: count 1, confidence `(0*1 + 0.8)/2 = 0.4`. -/
def profileAfterFirst : ProfileCard where
  id := "profile_card"
  user_id := "u"
  version := 2
  sections :=
    [("demographics",
       [("name",
          [("value", .pStr "Alex"), ("confidence", .pNum (2/5)),
           ("count", .pNum 1),
           ("reasons", .pReasons [⟨"first", 4/5, 0⟩])]),
        ("age", emptyScalar), ("gender", emptyScalar),
        ("location", emptyScalar)]),
     ("interests",
       [("primary_interests", []), ("secondary_interests", [])]),
     ("preferences",
       [("favorite_animals", []), ("favorite_foods", []),
        ("favorite_colors", []), ("favorite_activities", [])]),
     ("constraints",
       [("safety_limits", []), ("schedule_limits", []),
        ("health_limits", [])]),
     ("goals",
       [("learning_goals", []), ("personal_goals", [])]),
     ("context",
       [("recent_events", []), ("current_projects", [])]),
     ("communication",
       [("style", emptyScalar), ("learning_level", emptyScalar),
        ("attention_span", emptyScalar),
        ("language_preference",
          [("value", .pStr "English"), ("confidence", .pNum (95/100)),
           ("count", .pNum 1), ("reasons", .pReasons [])])])]
  metadata :=
    [("created_at", .pNum 0), ("updated_at", .pNum 0),
     ("last_consolidated", .pNum 0), ("total_facts", .pNum 0)]

/-- The state of `defaultProfile` after merging one `name` update with
value `"Alex"` at confidence `0.95`: count 1, confidence
`(0*1 + 0.95)/2 = 0.475`, value replaced. -/
def profileAfterName95 : ProfileCard where
  id := "profile_card"
  user_id := "u"
  version := 2
  sections :=
    [("demographics",
       [("name",
          [("value", .pStr "Alex"), ("confidence", .pNum (19/40)),
           ("count", .pNum 1),
           ("reasons", .pReasons [⟨"r", 19/20, 0⟩])]),
        ("age", emptyScalar), ("gender", emptyScalar),
        ("location", emptyScalar)]),
     ("interests",
       [("primary_interests", []), ("secondary_interests", [])]),
     ("preferences",
       [("favorite_animals", []), ("favorite_foods", []),
        ("favorite_colors", []), ("favorite_activities", [])]),
     ("constraints",
       [("safety_limits", []), ("schedule_limits", []),
        ("health_limits", [])]),
     ("goals",
       [("learning_goals", []), ("personal_goals", [])]),
     ("context",
       [("recent_events", []), ("current_projects", [])]),
     ("communication",
       [("style", emptyScalar), ("learning_level", emptyScalar),
        ("attention_span", emptyScalar),
        ("language_preference",
          [("value", .pStr "English"), ("confidence", .pNum (95/100)),
           ("count", .pNum 1), ("reasons", .pReasons [])])])]
  metadata :=
    [("created_at", .pNum 0), ("updated_at", .pNum 0),
     ("last_consolidated", .pNum 0), ("total_facts", .pNum 0)]

/-- Concrete evaluation of the merge that the spec's end-to-end scenario
describes: `"My name is Alex"` at confidence 0.95 on a fresh profile. -/
theorem mergeName95_eq :
    update_profile_with_confidence 0 defaultProfile
      [⟨"demographics", "name", "Alex", 19/20, "r"⟩] =
      some profileAfterName95 := by
  simp [update_profile_with_confidence, mergeSections, applyUpdate,
    lookupField, alookup, aset, amem, getNum, asNum, appendReason,
    defaultProfile, create_default_profile_card, emptyScalar,
    profileAfterName95]
  norm_num
  simp [alookup, aset]

/-- C1: the merge never computes the claimed simple average
`(old + new) / 2` once the field's prior count is non-zero.  With prior
count 1, confidence 0.80 and an update at 0.95 the code yields
`(0.8 * 2 + 0.95) / 3 = 0.85`, not the claimed 0.875: line 249 of
`profile_card.py` increments `count` before line 253 reads it back, so
the result is `(old * (c + 1) + new) / (c + 2)` for prior count `c`.  The
repository's own test (`test_update_profile_confidence_weighted_average`)
asserts 0.875 for the 0.80-then-0.95 sequence on a fresh profile, where
the code produces `7/12 ≈ 0.583`. -/
theorem confidence_average_contradicts_tests :
    confidenceAfter profileCount1
        ⟨"demographics", "name", "Alex", 19/20, "r"⟩ =
      some (.pNum (17/20)) ∧
    (17/20 : ℚ) ≠ 7/8 ∧
    ((update_profile_with_confidence 0 defaultProfile
        [⟨"demographics", "name", "Alex", 4/5, "first"⟩]).bind fun p1 =>
      confidenceAfter p1 ⟨"demographics", "name", "Alex", 19/20,
        "second"⟩) = some (.pNum (7/12)) ∧
    (7/12 : ℚ) ≠ 7/8 := by
  refine ⟨?_, by norm_num, ?_, by norm_num⟩
  · simp [confidenceAfter, update_profile_with_confidence, mergeSections,
      applyUpdate, lookupField, alookup, aset, amem, getNum, asNum,
      appendReason, profileCount1, nameAt80]
    norm_num [alookup]
    simp
  · have h1 : update_profile_with_confidence 0 defaultProfile
        [⟨"demographics", "name", "Alex", 4/5, "first"⟩] =
        some profileAfterFirst := by
      simp [update_profile_with_confidence, mergeSections, applyUpdate,
        lookupField, alookup, aset, amem, getNum, asNum, appendReason,
        defaultProfile, create_default_profile_card, emptyScalar,
        profileAfterFirst]
      norm_num
      simp [alookup, aset]
    rw [h1, Option.some_bind]
    simp [confidenceAfter, update_profile_with_confidence, mergeSections,
      applyUpdate, lookupField, alookup, aset, amem, getNum, asNum,
      appendReason, profileAfterFirst, emptyScalar]
    norm_num [alookup]
    simp

/-- C2: merging an update that targets a set field does not keep the
field's kind.  On the default profile (where `favorite_animals` is the
empty mapping `{}`), one update produces a dict with the scalar
attributes `count`, `confidence`, `value` and `reasons` — and no
`"triceratops"` fact-key, although the repository's own test
(`test_update_profile_with_confidence`) asserts
`"triceratops" in animals` after exactly this merge. -/
theorem merge_corrupts_set_field :
    ((update_profile_with_confidence 0 defaultProfile
        [⟨"preferences", "favorite_animals", "triceratops", 9/10,
          "r"⟩]).bind fun q =>
      lookupField q.sections "preferences" "favorite_animals") =
      some [("count", .pNum 1), ("confidence", .pNum (9/20)),
            ("value", .pStr "triceratops"),
            ("reasons", .pReasons [⟨"r", 9/10, 0⟩])] ∧
    ((update_profile_with_confidence 0 defaultProfile
        [⟨"preferences", "favorite_animals", "triceratops", 9/10,
          "r"⟩]).map fun q =>
      (lookupField q.sections "preferences" "favorite_animals").map
        fun d => (amem d "value", amem d "triceratops")) =
      some (some (true, false)) := by
  constructor
  · simp [update_profile_with_confidence, mergeSections, applyUpdate,
      lookupField, alookup, aset, amem, getNum, asNum, appendReason,
      defaultProfile, create_default_profile_card, emptyScalar]
    norm_num [alookup, aset]
    simp [alookup]
  · simp [update_profile_with_confidence, mergeSections, applyUpdate,
      lookupField, alookup, aset, amem, getNum, asNum, appendReason,
      defaultProfile, create_default_profile_card, emptyScalar]
    norm_num [alookup, aset, amem]
    simp [alookup, amem]

/-- C3: whenever `update_profile_with_confidence` returns (i.e. the
Python loop does not raise), the resulting version is exactly the old
version plus one — for any batch, including the empty one and batches of
unknown `(section, field)` pairs. -/
theorem merge_increments_version_once (now : ℚ) (p : ProfileCard)
    (us : List ProposedUpdate) (q : ProfileCard)
    (h : update_profile_with_confidence now p us = some q) :
    q.version = p.version + 1 := by
  unfold update_profile_with_confidence at h
  cases hm : mergeSections now p.sections us with
  | none => rw [hm] at h; cases h
  | some s => rw [hm, Option.map_some'] at h; cases h; rfl

theorem merge_increments_version_once_witness :
    (update_profile_with_confidence 0 defaultProfile []).map
      ProfileCard.version = some 2 := by
  have hq : update_profile_with_confidence 0 defaultProfile [] =
      some { defaultProfile with version := 2 } := by
    simp [update_profile_with_confidence, mergeSections, defaultProfile,
      create_default_profile_card]
  have h := merge_increments_version_once 0 defaultProfile [] _ hq
  rw [hq, Option.map_some', h]
  rfl

/-- The whole update loop changes no field entry outside the pairs named
by the batch. -/
theorem mergeSections_frame (now : ℚ) (us : List ProposedUpdate) :
    ∀ secs secs', mergeSections now secs us = some secs' →
    ∀ s f, (∀ u ∈ us, ¬(u.sect = s ∧ u.field = f)) →
    lookupField secs' s f = lookupField secs s f := by
  induction us with
  | nil =>
    intro secs secs' h s f _
    cases h; rfl
  | cons u rest ih =>
    intro secs secs' h s f hn
    unfold mergeSections at h
    rw [Option.bind_eq_some] at h
    obtain ⟨mid, hu, hrest⟩ := h
    have h1 := applyUpdate_frame now secs u mid hu s f
      (hn u (List.mem_cons_self u rest))
    have h2 := ih mid secs' hrest s f
      (fun v hv => hn v (List.mem_cons_of_mem _ hv))
    rw [h2, h1]

/-- C10: the merge modifies only the version and the field entries named
by the batch: the profile id, user id, the metadata record, and every
field entry not named by an update in the batch are returned unchanged. -/
theorem merge_frame_condition (now : ℚ) (p : ProfileCard)
    (us : List ProposedUpdate) (q : ProfileCard)
    (h : update_profile_with_confidence now p us = some q) :
    q.id = p.id ∧ q.user_id = p.user_id ∧ q.metadata = p.metadata ∧
    ∀ s f, (∀ u ∈ us, ¬(u.sect = s ∧ u.field = f)) →
      lookupField q.sections s f = lookupField p.sections s f := by
  unfold update_profile_with_confidence at h
  cases hm : mergeSections now p.sections us with
  | none => rw [hm] at h; cases h
  | some s0 =>
    rw [hm, Option.map_some'] at h
    cases h
    exact ⟨rfl, rfl, rfl, mergeSections_frame now us p.sections s0 hm⟩

theorem merge_frame_condition_witness :
    lookupField profileAfterName95.sections "preferences"
        "favorite_foods" =
      lookupField defaultProfile.sections "preferences"
        "favorite_foods" ∧
    profileAfterName95.metadata = defaultProfile.metadata := by
  obtain ⟨h1, h2, h3, h4⟩ := merge_frame_condition 0 defaultProfile
    [⟨"demographics", "name", "Alex", 19/20, "r"⟩] profileAfterName95
    mergeName95_eq
  exact ⟨h4 "preferences" "favorite_foods" (by simp), h3⟩

/-- Dropping the updates whose `(section, field)` pair is unknown does
not change the outcome of the update loop: the loop skips them one by
one.  Stated against a reference section map `secs₀` with the same
`(section, field)` pairs, so the induction can thread the invariant. -/
theorem mergeSections_filter_known (now : ℚ)
    (us : List ProposedUpdate) :
    ∀ secs secs₀ : List (String × SectionDict),
    (∀ s f, (lookupField secs s f).isSome =
      (lookupField secs₀ s f).isSome) →
    mergeSections now secs us =
      mergeSections now secs (us.filter (knownPair secs₀)) := by
  induction us with
  | nil => intro secs secs₀ _; rfl
  | cons u rest ih =>
    intro secs secs₀ hsh
    by_cases hk : knownPair secs₀ u
    · rw [List.filter_cons_of_pos hk]
      show (applyUpdate now secs u).bind _ =
        (applyUpdate now secs u).bind _
      cases ha : applyUpdate now secs u with
      | none => rfl
      | some mid =>
        simp only [Option.some_bind]
        exact ih mid secs₀ fun s f =>
          (applyUpdate_shape now secs u mid ha s f).trans (hsh s f)
    · rw [List.filter_cons_of_neg hk]
      have hk' : lookupField secs u.sect u.field = none := by
        unfold knownPair at hk
        cases hl : lookupField secs u.sect u.field with
        | none => rfl
        | some d =>
          exfalso
          apply hk
          rw [← hsh u.sect u.field, hl]
          rfl
      show (applyUpdate now secs u).bind _ = _
      rw [applyUpdate_unknown now secs u hk', Option.some_bind]
      exact ih secs secs₀ hsh

/-- C9: malformed raw updates (non-dicts, updates missing a required
key, non-numeric confidence, out-of-range confidence, unknown section)
are dropped one at a time by `handle_profile_updates_background` without
an error and without discarding their well-formed siblings; and the merge
itself silently skips updates whose `(section, field)` pair is unknown,
so its result equals the result of merging only the known-pair
updates. -/
theorem invalid_updates_dropped_individually :
    (∀ (pre post : List RawItem) (bad : RawItem),
      parseUpdate bad = none →
      filterValidUpdates (pre ++ bad :: post) =
        filterValidUpdates pre ++ filterValidUpdates post) ∧
    (∀ (now : ℚ) (p : ProfileCard) (us : List ProposedUpdate),
      update_profile_with_confidence now p us =
        update_profile_with_confidence now p
          (us.filter (knownPair p.sections))) := by
  constructor
  · intro pre post bad hb
    unfold filterValidUpdates
    rw [List.filterMap_append]
    simp [List.filterMap_cons, hb]
  · intro now p us
    unfold update_profile_with_confidence
    rw [← mergeSections_filter_known now us p.sections p.sections
      (fun s f => rfl)]

theorem invalid_updates_dropped_individually_witness :
    filterValidUpdates
      [.upd ⟨some "demographics", some "name", some "Alex",
        .num (19/20), some "r"⟩,
       .upd ⟨some "demographics", none, some "x", .num 1, some "r"⟩,
       .upd ⟨some "demographics", some "age", some "9", .num (1/2),
        some "r"⟩] =
      [⟨"demographics", "name", "Alex", 19/20, "r"⟩,
       ⟨"demographics", "age", "9", 1/2, "r"⟩] ∧
    update_profile_with_confidence 0 defaultProfile
        [⟨"nosuchsection", "x", "v", 1, "r"⟩] =
      update_profile_with_confidence 0 defaultProfile [] := by
  constructor
  · have h := invalid_updates_dropped_individually.1
      [.upd ⟨some "demographics", some "name", some "Alex",
        .num (19/20), some "r"⟩]
      [.upd ⟨some "demographics", some "age", some "9", .num (1/2),
        some "r"⟩]
      (.upd ⟨some "demographics", none, some "x", .num 1, some "r"⟩)
      (by simp [parseUpdate])
    rw [show ([.upd ⟨some "demographics", some "name", some "Alex",
        .num (19/20), some "r"⟩,
       .upd ⟨some "demographics", none, some "x", .num 1, some "r"⟩,
       .upd ⟨some "demographics", some "age", some "9", .num (1/2),
        some "r"⟩] : List RawItem) =
      [.upd ⟨some "demographics", some "name", some "Alex",
        .num (19/20), some "r"⟩] ++
      (.upd ⟨some "demographics", none, some "x", .num 1, some "r"⟩) ::
      [.upd ⟨some "demographics", some "age", some "9", .num (1/2),
        some "r"⟩] from rfl, h]
    simp [filterValidUpdates, List.filterMap, parseUpdate, validSections]
    norm_num
  · have h := invalid_updates_dropped_individually.2 0 defaultProfile
      [⟨"nosuchsection", "x", "v", 1, "r"⟩]
    rw [h]
    have hf : List.filter (knownPair defaultProfile.sections)
        [⟨"nosuchsection", "x", "v", 1, "r"⟩] =
        ([] : List ProposedUpdate) := by
      simp [knownPair, lookupField, alookup, defaultProfile,
        create_default_profile_card]
    rw [hf]

/-- Appending to the reasons log touches no other key of the field
dict. -/
theorem appendReason_preserves (now : ℚ) (d : PDict)
    (u : ProposedUpdate) (d' : PDict)
    (h : appendReason now d u = some d') (k : String)
    (hk : k ≠ "reasons") : alookup d' k = alookup d k := by
  have hw : alookup (withReasons d) k = alookup d k := by
    unfold withReasons
    by_cases hm : amem d "reasons"
    · rw [if_pos hm]
    · rw [if_neg hm]
      exact alookup_aset_ne d "reasons" k _ (fun he => hk he.symm)
  unfold appendReason at h
  cases hl : alookup (withReasons d) "reasons" with
  | none => rw [hl] at h; cases h
  | some v =>
    rw [hl] at h
    cases v with
    | pReasons rs =>
      simp only at h
      cases h
      rw [alookup_aset_ne _ "reasons" k _ (fun he => hk he.symm), hw]
    | pStr s => cases h
    | pNum q => cases h
    | pDict m => cases h

/-- C5: for a well-formed scalar field (numeric stored confidence
`oldConf`), a single-update merge replaces the stored `value` by the
proposed one exactly when `new_confidence > old_confidence + 0.1`, the
comparison being strict: at exactly `old + 0.1` the stored value is kept,
at `old + 0.1 + 0.0001` it is replaced. -/
theorem merge_value_replacement_threshold (now : ℚ) (p : ProfileCard)
    (u : ProposedUpdate) (secD : SectionDict) (cur : PDict)
    (oldConf : ℚ) (q : ProfileCard)
    (hs : alookup p.sections u.sect = some secD)
    (hf : alookup secD u.field = some cur)
    (hconf : getNum cur "confidence" 0 = some oldConf)
    (hq : update_profile_with_confidence now p [u] = some q) :
    ∃ cur', lookupField q.sections u.sect u.field = some cur' ∧
      alookup cur' "value" =
        (if oldConf + 1/10 < u.confidence then some (.pStr u.value)
         else alookup cur "value") ∧
      (u.confidence = oldConf + 1/10 →
        alookup cur' "value" = alookup cur "value") ∧
      (u.confidence = oldConf + 1/10 + 1/10000 →
        alookup cur' "value" = some (.pStr u.value)) := by
  unfold update_profile_with_confidence at hq
  cases hm : mergeSections now p.sections [u] with
  | none => rw [hm] at hq; cases hq
  | some s0 =>
    rw [hm, Option.map_some'] at hq
    cases hq
    unfold mergeSections at hm
    rw [Option.bind_eq_some] at hm
    obtain ⟨mid, ha, hrest⟩ := hm
    have hmid : mid = s0 := by
      unfold mergeSections at hrest
      exact Option.some_injective _ hrest
    subst hmid
    unfold applyUpdate at ha
    split at ha
    · rename_i hnone; rw [hs] at hnone; cases hnone
    · rename_i secD' hs'
      rw [hs] at hs'
      injection hs' with hsd
      subst hsd
      split at ha
      · rename_i hnone; rw [hf] at hnone; cases hnone
      · rename_i cur₂ hf'
        rw [hf] at hf'
        injection hf' with hcd
        subst hcd
        rw [Option.bind_eq_some] at ha
        obtain ⟨c0, hc0, ha⟩ := ha
        rw [Option.bind_eq_some] at ha
        obtain ⟨oc, hoc, ha⟩ := ha
        rw [getNum_aset_ne cur "count" "confidence" _ 0
          (by simp)] at hoc
        rw [hconf] at hoc
        injection hoc with hoc
        subst hoc
        rw [Option.bind_eq_some] at ha
        obtain ⟨ocount, hocount, ha⟩ := ha
        split at ha
        · cases ha
        · rw [Option.bind_eq_some] at ha
          obtain ⟨curF, hrsn, ha⟩ := ha
          injection ha with ha
          subst ha
          refine ⟨curF, ?_, ?_⟩
          · unfold lookupField
            rw [alookup_aset_self, Option.some_bind, alookup_aset_self]
          · have hval := appendReason_preserves now _ u curF hrsn
              "value" (by simp)
            by_cases hcond : oldConf + 1/10 < u.confidence
            · rw [if_pos hcond] at hval ⊢
              rw [hval, alookup_aset_self]
              refine ⟨rfl, ?_, fun _ => rfl⟩
              intro heq
              exact absurd hcond (by rw [heq]; simp)
            · rw [if_neg hcond] at hval ⊢
              rw [hval,
                alookup_aset_ne _ "confidence" "value" _ (by simp),
                alookup_aset_ne cur "count" "value" _ (by simp)]
              refine ⟨rfl, fun _ => rfl, ?_⟩
              intro heq
              exact absurd (by rw [heq]; norm_num :
                oldConf + 1/10 < u.confidence) hcond

theorem merge_value_replacement_threshold_witness :
    ((update_profile_with_confidence 0 profileCount1
        [⟨"demographics", "name", "Bob", 9/10, "r"⟩]).bind fun q =>
      (lookupField q.sections "demographics" "name").bind fun d =>
        alookup d "value") = some (.pStr "Alex") ∧
    ((update_profile_with_confidence 0 profileCount1
        [⟨"demographics", "name", "Bob", 9001/10000, "r"⟩]).bind
      fun q => (lookupField q.sections "demographics" "name").bind
        fun d => alookup d "value") = some (.pStr "Bob") := by
  constructor
  · have hq : update_profile_with_confidence 0 profileCount1
        [⟨"demographics", "name", "Bob", 9/10, "r"⟩] =
        some ⟨"profile_card", "u", 2,
          [("demographics",
            [("name",
              [("value", .pStr "Alex"), ("confidence", .pNum (5/6)),
               ("count", .pNum 2),
               ("reasons", .pReasons [⟨"r", 9/10, 0⟩])])])],
          []⟩ := by
      simp [update_profile_with_confidence, mergeSections, applyUpdate,
        lookupField, alookup, aset, amem, getNum, asNum, appendReason,
        withReasons, profileCount1, nameAt80]
      norm_num
      simp [alookup, aset]
    obtain ⟨cur', hl, hv, hkeep, _⟩ :=
      merge_value_replacement_threshold 0 profileCount1
        ⟨"demographics", "name", "Bob", 9/10, "r"⟩ [("name", nameAt80)]
        nameAt80 (4/5) _
        (by simp [profileCount1, alookup])
        (by simp [alookup])
        (by simp [getNum, alookup, nameAt80, asNum])
        hq
    have hl' : lookupField
        (⟨"profile_card", "u", 2,
          [("demographics",
            [("name",
              [("value", .pStr "Alex"), ("confidence", .pNum (5/6)),
               ("count", .pNum 2),
               ("reasons", .pReasons [⟨"r", 9/10, 0⟩])])])],
          []⟩ : ProfileCard).sections "demographics" "name" =
        some cur' := hl
    have hkeep' := hkeep (by norm_num)
    rw [hq, Option.some_bind, hl', Option.some_bind, hkeep']
    rfl
  · have hq : update_profile_with_confidence 0 profileCount1
        [⟨"demographics", "name", "Bob", 9001/10000, "r"⟩] =
        some ⟨"profile_card", "u", 2,
          [("demographics",
            [("name",
              [("value", .pStr "Bob"),
               ("confidence", .pNum (25001/30000)),
               ("count", .pNum 2),
               ("reasons", .pReasons [⟨"r", 9001/10000, 0⟩])])])],
          []⟩ := by
      simp [update_profile_with_confidence, mergeSections, applyUpdate,
        lookupField, alookup, aset, amem, getNum, asNum, appendReason,
        withReasons, profileCount1, nameAt80]
      norm_num
      simp [alookup, aset]
    obtain ⟨cur', hl, hv, _, hrepl⟩ :=
      merge_value_replacement_threshold 0 profileCount1
        ⟨"demographics", "name", "Bob", 9001/10000, "r"⟩
        [("name", nameAt80)] nameAt80 (4/5) _
        (by simp [profileCount1, alookup])
        (by simp [alookup])
        (by simp [getNum, alookup, nameAt80, asNum])
        hq
    have hl' : lookupField
        (⟨"profile_card", "u", 2,
          [("demographics",
            [("name",
              [("value", .pStr "Bob"),
               ("confidence", .pNum (25001/30000)),
               ("count", .pNum 2),
               ("reasons", .pReasons [⟨"r", 9001/10000, 0⟩])])])],
          []⟩ : ProfileCard).sections "demographics" "name" =
        some cur' := hl
    have hrepl' := hrepl (by norm_num)
    rw [hq, Option.some_bind, hl', Option.some_bind, hrepl']

/-- C4: `validate_updates` keeps exactly the non-duplicate updates, in
order; for an existing scalar field (one with a `value` key, the code's
and the spec's discriminator) an update is kept iff the stored value
differs from the proposed one, for an existing set field (no `value`
key) iff the proposed value is not among its keys; the decision never
reads the update's confidence or reason; and a batch of updates whose
values are all already stored validates to the empty list. -/
theorem validate_updates_duplicate_policy (p : ProfileCard)
    (us : List ProposedUpdate) (u : ProposedUpdate)
    (secD : SectionDict) (cur : PDict)
    (hs : alookup p.sections u.sect = some secD)
    (hf : alookup secD u.field = some cur) :
    validate_updates us p = us.filter (keepUpdate p) ∧
    (∀ w, alookup cur "value" = some w →
      (keepUpdate p u = true ↔ w ≠ .pStr u.value)) ∧
    (alookup cur "value" = none →
      (keepUpdate p u = true ↔ amem cur u.value = false)) ∧
    (∀ c r, keepUpdate p { u with confidence := c, reason := r } =
      keepUpdate p u) ∧
    ((∀ v ∈ us, keepUpdate p v = false) → validate_updates us p = []) := by
  refine ⟨rfl, ?_, ?_, fun c r => rfl, ?_⟩
  · intro w hw
    unfold keepUpdate
    simp only [hs, hf, hw]
    cases w with
    | pStr t =>
      simp only [pyEqStr, Bool.not_eq_true', beq_eq_false_iff_ne]
      constructor
      · intro hne heq
        injection heq with heq
        exact hne heq
      · intro hne he
        exact hne (by rw [he])
    | pNum q => simp [pyEqStr]
    | pReasons rs => simp [pyEqStr]
    | pDict m => simp [pyEqStr]
  · intro hw
    unfold keepUpdate
    simp only [hs, hf, hw]
    simp
  · intro hall
    unfold validate_updates
    rw [List.filter_eq_nil_iff]
    intro v hv
    rw [hall v hv]
    simp

theorem validate_updates_duplicate_policy_witness :
    keepUpdate defaultProfile
      ⟨"communication", "language_preference", "English", 1/2, "r"⟩ =
      false ∧
    keepUpdate profileAnimals
      ⟨"preferences", "favorite_animals", "triceratops", 9/10, "r"⟩ =
      false ∧
    keepUpdate profileAnimals
      ⟨"preferences", "favorite_animals", "stegosaurus", 9/10, "r"⟩ =
      true ∧
    validate_updates
      [⟨"communication", "language_preference", "English", 1/2, "r"⟩]
      defaultProfile = [] := by
  have h1 := validate_updates_duplicate_policy defaultProfile
    [⟨"communication", "language_preference", "English", 1/2, "r"⟩]
    ⟨"communication", "language_preference", "English", 1/2, "r"⟩
    [("style", emptyScalar), ("learning_level", emptyScalar),
     ("attention_span", emptyScalar),
     ("language_preference",
       [("value", .pStr "English"), ("confidence", .pNum (95/100)),
        ("count", .pNum 1), ("reasons", .pReasons [])])]
    [("value", .pStr "English"), ("confidence", .pNum (95/100)),
     ("count", .pNum 1), ("reasons", .pReasons [])]
    (by simp [defaultProfile, create_default_profile_card, alookup])
    (by simp [alookup])
  have h2 := validate_updates_duplicate_policy profileAnimals []
    ⟨"preferences", "favorite_animals", "triceratops", 9/10, "r"⟩
    [("favorite_animals", animalsField)] animalsField
    (by simp [profileAnimals, alookup])
    (by simp [alookup])
  have h3 := validate_updates_duplicate_policy profileAnimals []
    ⟨"preferences", "favorite_animals", "stegosaurus", 9/10, "r"⟩
    [("favorite_animals", animalsField)] animalsField
    (by simp [profileAnimals, alookup])
    (by simp [alookup])
  have hk1 : keepUpdate defaultProfile
      ⟨"communication", "language_preference", "English", 1/2, "r"⟩ =
      false := by
    have := h1.2.1 (.pStr "English")
      (by simp [alookup])
    simp only [Bool.not_eq_true] at this ⊢
    by_cases hb : keepUpdate defaultProfile
        ⟨"communication", "language_preference", "English", 1/2, "r"⟩
    · exact absurd rfl ((this.mp hb))
    · simpa using hb
  have hk2 : keepUpdate profileAnimals
      ⟨"preferences", "favorite_animals", "triceratops", 9/10, "r"⟩ =
      false := by
    have := h2.2.2.1 (by simp [animalsField, alookup])
    by_cases hb : keepUpdate profileAnimals
        ⟨"preferences", "favorite_animals", "triceratops", 9/10, "r"⟩
    · exfalso
      have hmem := this.mp hb
      rw [show amem animalsField "triceratops" = true by
        simp [animalsField, amem, alookup]] at hmem
      cases hmem
    · simpa using hb
  have hk3 : keepUpdate profileAnimals
      ⟨"preferences", "favorite_animals", "stegosaurus", 9/10, "r"⟩ =
      true := by
    apply (h3.2.2.1 (by simp [animalsField, alookup])).mpr
    simp [animalsField, amem, alookup]
  refine ⟨hk1, hk2, hk3, ?_⟩
  apply h1.2.2.2.2
  intro v hv
  rw [List.mem_singleton] at hv
  rw [hv, hk1]

/-! ## Slug-keyed memory upsert (`firestore_store.py`) -/

/-- A character kept verbatim by `_slug` (matches `[a-z0-9]`, the
complement of the `_slug_rx` pattern). -/
def isSlugChar (c : Char) : Bool :=
  (decide ('a' ≤ c) && decide (c ≤ 'z')) ||
    (decide ('0' ≤ c) && decide (c ≤ '9'))

/-- ASCII lowercasing, mirroring `str.lower()` on the ASCII inputs the
slug is used for. -/
def lowerChar (c : Char) : Char :=
  if 'A' ≤ c ∧ c ≤ 'Z' then Char.ofNat (c.toNat + 32) else c

/-- Replace every maximal run of non-`[a-z0-9]` characters by a single
`'-'` (the effect of `_slug_rx.sub("-", ...)`). -/
theorem length_dropWhile_le {α : Type} (p : α → Bool) (l : List α) :
    (l.dropWhile p).length ≤ l.length := by
  induction l with
  | nil => simp [List.dropWhile]
  | cons a t ih =>
    rw [List.dropWhile_cons]
    by_cases h : p a = true
    · rw [if_pos h]
      exact Nat.le_trans ih (Nat.le_succ _)
    · rw [if_neg h]

def collapseRuns : List Char → List Char
  | [] => []
  | c :: rest =>
    if isSlugChar c then c :: collapseRuns rest
    else '-' :: collapseRuns (rest.dropWhile fun d => !isSlugChar d)
termination_by l => l.length
decreasing_by
  · simp only [List.length_cons]
    exact Nat.lt_succ_self _
  · simp only [List.length_cons]
    exact Nat.lt_succ_of_le (length_dropWhile_le _ _)

/-- Python `.strip("-")`: drop all leading and trailing dashes. -/
def stripDashes (l : List Char) : List Char :=
  ((l.dropWhile (· = '-')).reverse.dropWhile (· = '-')).reverse

/-- `_slug` from `firestore_store.py`:
`_slug_rx.sub("-", s.lower()).strip("-")`. -/
def slug (s : String) : String :=
  String.mk (stripDashes (collapseRuns (s.data.map lowerChar)))

/-- The memory item dict passed to `add_memory`: every key may be
absent (the code reads them all with `.get` defaults). -/
structure MemItemIn where
  mtype : Option String
  key : Option String
  value : Option String
  confidence : Option ℚ
  salience : Option ℚ
  ts : Option ℚ
  deriving DecidableEq, Repr

/-- A stored memory document (the `data` dict written by `add_memory`). -/
structure MemDoc where
  mtype : String
  key : String
  value : String
  confidence : ℚ
  salience : ℚ
  ts : ℚ
  updated_at : ℚ
  score : ℚ
  deriving DecidableEq, Repr

/-- Python 3 `round` to an integer: round half to even. -/
def roundHalfEven (x : ℚ) : ℤ :=
  if Int.fract x = 1/2 then
    (if Even ⌊x⌋ then ⌊x⌋ else ⌊x⌋ + 1)
  else round x

/-- `round(x, 6)` as used for the `score` field. -/
def round6 (x : ℚ) : ℚ := (roundHalfEven (x * 1000000) : ℚ) / 1000000

/-- The Firestore document id `f"{mtype}:{_slug(key) or 'key'}"`. -/
def memDocId (mtype key : String) : String :=
  mtype ++ ":" ++ (if slug key = "" then "key" else slug key)

/-- The `data` dict written when no document with the computed id
exists yet. -/
def mkNewDoc (now : ℚ) (item : MemItemIn) : MemDoc where
  mtype := item.mtype.getD "semantic"
  key := item.key.getD ""
  value := item.value.getD ""
  confidence := item.confidence.getD (9/10)
  salience := item.salience.getD 1
  ts := item.ts.getD now
  updated_at := now
  score := round6 ((item.salience.getD 1) * (item.confidence.getD (9/10)))

/-- The `data` dict written over an existing document `cur`: if the same
`{type, key, value}` re-appears, nudge salience by `0.2` (capped at 10)
and keep the higher confidence; the original `ts` is kept either way. -/
def mergeDoc (now : ℚ) (item : MemItemIn) (cur : MemDoc) : MemDoc where
  mtype := item.mtype.getD "semantic"
  key := item.key.getD ""
  value := item.value.getD ""
  confidence :=
    if cur.value = item.value.getD "" ∧
        cur.mtype = item.mtype.getD "semantic" then
      max cur.confidence (item.confidence.getD (9/10))
    else item.confidence.getD (9/10)
  salience :=
    if cur.value = item.value.getD "" ∧
        cur.mtype = item.mtype.getD "semantic" then
      min (cur.salience + 1/5) 10
    else item.salience.getD 1
  ts := cur.ts
  updated_at := now
  score := round6
    ((if cur.value = item.value.getD "" ∧
          cur.mtype = item.mtype.getD "semantic" then
        min (cur.salience + 1/5) 10
      else item.salience.getD 1) *
     (if cur.value = item.value.getD "" ∧
          cur.mtype = item.mtype.getD "semantic" then
        max cur.confidence (item.confidence.getD (9/10))
      else item.confidence.getD (9/10)))

/-- `add_memory` from `firestore_store.py`, acting on a user's
`memories` collection modelled as an association list from document id to
document (Firestore holds at most one document per id).  Returns the new
collection and the written `data` dict. -/
def add_memory (now : ℚ) (store : List (String × MemDoc))
    (item : MemItemIn) : List (String × MemDoc) × MemDoc :=
  match alookup store
      (memDocId (item.mtype.getD "semantic") (item.key.getD "")) with
  | none =>
    (aset store (memDocId (item.mtype.getD "semantic")
      (item.key.getD "")) (mkNewDoc now item), mkNewDoc now item)
  | some cur =>
    (aset store (memDocId (item.mtype.getD "semantic")
      (item.key.getD "")) (mergeDoc now item cur), mergeDoc now item cur)

/-- `alookup` misses exactly the keys outside the key list. -/
theorem alookup_eq_none_iff {α : Type} (d : List (String × α))
    (k : String) : alookup d k = none ↔ k ∉ d.map Prod.fst := by
  induction d with
  | nil => simp [alookup]
  | cons hd tl ih =>
    obtain ⟨k', v⟩ := hd
    by_cases h : k' = k
    · subst h; simp [alookup]
    · rw [show alookup ((k', v) :: tl) k = alookup tl k by
        simp [alookup, h], ih]
      simp only [List.map_cons, List.mem_cons]
      constructor
      · intro hn hc
        rcases hc with hc | hc
        · exact h hc.symm
        · exact hn hc
      · intro hn hc
        exact hn (Or.inr hc)

/-- `aset` preserves uniqueness of document ids. -/
theorem nodup_keys_aset {α : Type} (d : List (String × α)) (k : String)
    (v : α) (h : (d.map Prod.fst).Nodup) :
    ((aset d k v).map Prod.fst).Nodup := by
  rw [keys_aset]
  by_cases hm : amem d k
  · rw [if_pos hm]; exact h
  · rw [if_neg hm]
    rw [List.nodup_append]
    refine ⟨h, List.nodup_singleton k, ?_⟩
    intro a ha hb
    rw [List.mem_singleton] at hb
    subst hb
    unfold amem at hm
    rw [Bool.not_eq_true] at hm
    have : alookup d a = none := by
      cases hl : alookup d a with
      | none => rfl
      | some v' => rw [hl] at hm; cases hm
    rw [alookup_eq_none_iff] at this
    exact this ha

/-- The new collection written by `add_memory` is always an in-place
`set` at the computed document id. -/
theorem add_memory_fst (now : ℚ) (store : List (String × MemDoc))
    (item : MemItemIn) :
    ∃ doc, (add_memory now store item).1 =
      aset store (memDocId (item.mtype.getD "semantic")
        (item.key.getD "")) doc := by
  unfold add_memory
  cases alookup store (memDocId (item.mtype.getD "semantic")
      (item.key.getD "")) with
  | none => exact ⟨_, rfl⟩
  | some cur => exact ⟨_, rfl⟩

/-- C6: the memory store keeps at most one document per
`(type, slug(key))`.  The document id depends only on the type and the
slug of the key; `add_memory` never breaks uniqueness of document ids;
and a second `add_memory` whose type matches and whose key has the same
slug writes to the very same document, leaving the set of document ids
unchanged (an upsert, never a second record). -/
theorem add_memory_upsert_per_type_key :
    (∀ t k1 k2, slug k1 = slug k2 → memDocId t k1 = memDocId t k2) ∧
    (∀ (now : ℚ) (store : List (String × MemDoc)) (item : MemItemIn),
      (store.map Prod.fst).Nodup →
      (((add_memory now store item).1).map Prod.fst).Nodup) ∧
    (∀ (now1 now2 : ℚ) (store : List (String × MemDoc))
       (i1 i2 : MemItemIn),
      i1.mtype.getD "semantic" = i2.mtype.getD "semantic" →
      slug (i1.key.getD "") = slug (i2.key.getD "") →
      ((add_memory now2 (add_memory now1 store i1).1 i2).1).map
        Prod.fst = ((add_memory now1 store i1).1).map Prod.fst) := by
  refine ⟨?_, ?_, ?_⟩
  · intro t k1 k2 h
    unfold memDocId
    rw [h]
  · intro now store item h
    obtain ⟨doc, hd⟩ := add_memory_fst now store item
    rw [hd]
    exact nodup_keys_aset store _ doc h
  · intro now1 now2 store i1 i2 ht hk
    obtain ⟨d1, h1⟩ := add_memory_fst now1 store i1
    obtain ⟨d2, h2⟩ := add_memory_fst now2 (add_memory now1 store i1).1 i2
    have hid : memDocId (i2.mtype.getD "semantic") (i2.key.getD "") =
        memDocId (i1.mtype.getD "semantic") (i1.key.getD "") := by
      rw [← ht]
      unfold memDocId
      rw [hk]
    rw [h2, hid, h1, keys_aset]
    rw [if_pos ?_]
    unfold amem
    rw [alookup_aset_self]
    rfl

theorem add_memory_upsert_per_type_key_witness :
    memDocId "semantic" "Likes Dinosaurs!" =
      memDocId "semantic" "likes_dinosaurs" ∧
    ((add_memory 1
        (add_memory 0 []
          ⟨some "semantic", some "Likes Dinosaurs!",
           some "triceratops", some (9/10), some 1, none⟩).1
        ⟨some "semantic", some "likes_dinosaurs", some "triceratops",
         some (19/20), some 1, none⟩).1).map Prod.fst =
      ["semantic:likes-dinosaurs"] := by
  have hslug : slug "Likes Dinosaurs!" = slug "likes_dinosaurs" := by
    simp [slug, collapseRuns, stripDashes, isSlugChar, lowerChar]
  constructor
  · exact add_memory_upsert_per_type_key.1 "semantic" _ _ hslug
  · rw [add_memory_upsert_per_type_key.2.2 0 1 []
      ⟨some "semantic", some "Likes Dinosaurs!", some "triceratops",
       some (9/10), some 1, none⟩
      ⟨some "semantic", some "likes_dinosaurs", some "triceratops",
       some (19/20), some 1, none⟩ rfl hslug]
    obtain ⟨d1, h1⟩ := add_memory_fst 0 []
      ⟨some "semantic", some "Likes Dinosaurs!", some "triceratops",
       some (9/10), some 1, none⟩
    rw [h1]
    have : memDocId "semantic" "Likes Dinosaurs!" =
        "semantic:likes-dinosaurs" := by
      simp [memDocId, slug, collapseRuns, stripDashes, isSlugChar,
        lowerChar]
    simp [aset, this]

/-! ## Episode search result formatting (`episodic_memory.py`) -/

/-- The per-episode metadata stored in the Chroma collection. -/
structure EpMeta where
  user_message : String
  ai_response : String
  round_number : ℤ
  session_id : String
  timestamp : String
  tokens : ℤ
  deriving DecidableEq, Repr

/-- One formatted episode as returned by `search_episodes`. -/
structure EpisodeOut where
  id : String
  user_message : String
  ai_response : String
  round_number : ℤ
  session_id : String
  timestamp : String
  tokens : ℤ
  similarity : ℚ
  deriving DecidableEq, Repr

/-- A Chroma `query` result: per query embedding, parallel lists of ids,
metadatas and distances (the code only reads index `[0]`). -/
structure QueryResult where
  ids : List (List String)
  metadatas : List (List EpMeta)
  distances : List (List ℚ)
  deriving DecidableEq, Repr

/-- The loop body of `search_episodes`: walk `metadatas[0]`, fetching
`ids[0][i]` and `distances[0][i]` at each index; `none` models the
`IndexError` raised when those lists are shorter. -/
def formatEpisodes : List EpMeta → List String → List ℚ →
    Option (List EpisodeOut)
  | [], _, _ => some []
  | m :: ms, i :: idRest, d :: dRest =>
    (formatEpisodes ms idRest dRest).map fun rest =>
      ⟨i, m.user_message, m.ai_response, m.round_number, m.session_id,
       m.timestamp, m.tokens, 1 - d⟩ :: rest
  | _ :: _, [], _ => none
  | _ :: _, _ :: _, [] => none

/-- `search_episodes` from `episodic_memory.py`, starting from the raw
Chroma query result (the embedding call and the user-id filter live in
the excluded vector-store capability).  Returns `[]` when `metadatas` is
falsy or `metadatas[0]` is empty. -/
def search_episodes (res : QueryResult) : Option (List EpisodeOut) :=
  match res.metadatas with
  | [] => some []
  | ms :: _ =>
    if ms.isEmpty then some []
    else
      match res.ids, res.distances with
      | idList :: _, dList :: _ => formatEpisodes ms idList dList
      | [], _ => none
      | _ :: _, [] => none

/-- Successful formatting pairs each metadata with the distance at the
same index and keeps the order. -/
theorem formatEpisodes_spec (ms : List EpMeta) :
    ∀ (idList : List String) (dList : List ℚ) (out : List EpisodeOut),
    formatEpisodes ms idList dList = some out →
    out.length = ms.length ∧
    (∀ j (hj : j < out.length) (hd : j < dList.length),
      (out.get ⟨j, hj⟩).similarity = 1 - dList.get ⟨j, hd⟩) := by
  induction ms with
  | nil =>
    intro idList dList out h
    cases h
    exact ⟨rfl, fun j hj => absurd hj (by simp)⟩
  | cons m ms ih =>
    intro idList dList out h
    cases idList with
    | nil => cases h
    | cons i idRest =>
      cases dList with
      | nil => cases h
      | cons d dRest =>
        unfold formatEpisodes at h
        cases hrest : formatEpisodes ms idRest dRest with
        | none => rw [hrest] at h; cases h
        | some rest =>
          rw [hrest, Option.map_some'] at h
          cases h
          obtain ⟨hlen, hsim⟩ := ih idRest dRest rest hrest
          refine ⟨by simp [hlen], ?_⟩
          intro j hj hd
          cases j with
          | zero => rfl
          | succ j' =>
            simp only [List.get_cons_succ]
            exact hsim j' (by simpa using hj) (by simpa using hd)

/-- Every similarity in a successful formatting is `1 - d` for some
distance `d` of the input list. -/
theorem formatEpisodes_sims (ms : List EpMeta) :
    ∀ (idList : List String) (dList : List ℚ) (out : List EpisodeOut),
    formatEpisodes ms idList dList = some out →
    ∀ e ∈ out, ∃ d' ∈ dList, e.similarity = 1 - d' := by
  induction ms with
  | nil =>
    intro idList dList out h e he
    cases h
    cases he
  | cons m ms ih =>
    intro idList dList out h e he
    cases idList with
    | nil => cases h
    | cons i idRest =>
      cases dList with
      | nil => cases h
      | cons d dRest =>
        unfold formatEpisodes at h
        cases hrest : formatEpisodes ms idRest dRest with
        | none => rw [hrest] at h; cases h
        | some rest =>
          rw [hrest, Option.map_some'] at h
          cases h
          rcases List.mem_cons.mp he with rfl | he'
          · exact ⟨d, List.mem_cons_self d dRest, rfl⟩
          · obtain ⟨d', hd', hs⟩ := ih idRest dRest rest hrest e he'
            exact ⟨d', List.mem_cons_of_mem d hd', hs⟩

/-- Ascending distances give descending similarities. -/
theorem formatEpisodes_sorted (ms : List EpMeta) :
    ∀ (idList : List String) (dList : List ℚ) (out : List EpisodeOut),
    dList.Sorted (· ≤ ·) →
    formatEpisodes ms idList dList = some out →
    (out.map EpisodeOut.similarity).Sorted (· ≥ ·) := by
  induction ms with
  | nil =>
    intro idList dList out _ h
    cases h
    simp
  | cons m ms ih =>
    intro idList dList out hsorted h
    cases idList with
    | nil => cases h
    | cons i idRest =>
      cases dList with
      | nil => cases h
      | cons d dRest =>
        unfold formatEpisodes at h
        cases hrest : formatEpisodes ms idRest dRest with
        | none => rw [hrest] at h; cases h
        | some rest =>
          rw [hrest, Option.map_some'] at h
          cases h
          rw [List.sorted_cons] at hsorted
          obtain ⟨hhead, htail⟩ := hsorted
          rw [List.map_cons, List.sorted_cons]
          constructor
          · intro x hx
            rw [List.mem_map] at hx
            obtain ⟨e, he, rfl⟩ := hx
            obtain ⟨d', hd', hs⟩ :=
              formatEpisodes_sims ms idRest dRest rest hrest e he
            have := hhead d' hd'
            simp only [hs]
            linarith
          · exact ih idRest dRest rest htail hrest

/-- C8: every episode returned by `search_episodes` reports
`similarity = 1 - distance` for the distance at its position, and when
the store returns distances in ascending order (Chroma's contract) the
result list is ordered by descending similarity. -/
theorem search_episodes_similarity (res : QueryResult)
    (out : List EpisodeOut) (ms : List EpMeta) (dList : List ℚ)
    (hm : res.metadatas.head? = some ms)
    (hd : res.distances.head? = some dList)
    (h : search_episodes res = some out) :
    (∀ j (hj : j < out.length) (hjd : j < dList.length),
      (out.get ⟨j, hj⟩).similarity = 1 - dList.get ⟨j, hjd⟩) ∧
    (dList.Sorted (· ≤ ·) →
      (out.map EpisodeOut.similarity).Sorted (· ≥ ·)) := by
  have hmain : out = [] ∨ ∃ idList, res.ids.head? = some idList ∧
      formatEpisodes ms idList dList = some out := by
    unfold search_episodes at h
    split at h
    · exact Or.inl (Option.some_injective _ h).symm
    · rename_i ms0 mrest heq
      have hms0 : ms0 = ms := by
        rw [heq] at hm
        exact Option.some_injective _ hm
      subst hms0
      split at h
      · exact Or.inl (Option.some_injective _ h).symm
      · split at h
        · rename_i idList idRest dl drest heqi heqd
          have hdl : dl = dList := by
            rw [heqd] at hd
            exact Option.some_injective _ hd
          subst hdl
          exact Or.inr ⟨idList, by rw [heqi]; rfl, h⟩
        · cases h
        · cases h
  rcases hmain with rfl | ⟨idList, hid, hfmt⟩
  · exact ⟨fun j hj => absurd hj (by simp), fun _ => by simp⟩
  · obtain ⟨hlen, hsim⟩ := formatEpisodes_spec ms idList dList out hfmt
    exact ⟨hsim, fun hs =>
      formatEpisodes_sorted ms idList dList out hs hfmt⟩

theorem search_episodes_similarity_witness :
    (search_episodes
        ⟨[["e1", "e2"]],
         [[⟨"hi", "hello", 1, "s", "t1", 2⟩,
           ⟨"bye", "later", 2, "s", "t2", 2⟩]],
         [[1/5, 1/2]]⟩).map
      (fun out => out.map EpisodeOut.similarity) =
      some [4/5, 1/2] ∧
    ([1/5, 1/2] : List ℚ).Sorted (· ≤ ·) ∧
    ([4/5, 1/2] : List ℚ).Sorted (· ≥ ·) := by
  have hout : search_episodes
      ⟨[["e1", "e2"]],
       [[⟨"hi", "hello", 1, "s", "t1", 2⟩,
         ⟨"bye", "later", 2, "s", "t2", 2⟩]],
       [[1/5, 1/2]]⟩ =
      some [⟨"e1", "hi", "hello", 1, "s", "t1", 2, 1 - 1/5⟩,
            ⟨"e2", "bye", "later", 2, "s", "t2", 2, 1 - 1/2⟩] := by
    simp [search_episodes, formatEpisodes]
  obtain ⟨hsim, hsorted⟩ := search_episodes_similarity
    ⟨[["e1", "e2"]],
     [[⟨"hi", "hello", 1, "s", "t1", 2⟩,
       ⟨"bye", "later", 2, "s", "t2", 2⟩]],
     [[1/5, 1/2]]⟩
    [⟨"e1", "hi", "hello", 1, "s", "t1", 2, 1 - 1/5⟩,
     ⟨"e2", "bye", "later", 2, "s", "t2", 2, 1 - 1/2⟩]
    [⟨"hi", "hello", 1, "s", "t1", 2⟩, ⟨"bye", "later", 2, "s", "t2", 2⟩]
    [1/5, 1/2] rfl rfl hout
  have hasc : ([1/5, 1/2] : List ℚ).Sorted (· ≤ ·) := by
    simp [List.sorted_cons]
    norm_num
  refine ⟨?_, hasc, ?_⟩
  · rw [hout, Option.map_some']
    have h0 := hsim 0 (by simp) (by simp)
    have h1 := hsim 1 (by simp) (by simp)
    simp only [List.map_cons, List.map_nil]
    rw [show (1 : ℚ) - 1/5 = 4/5 by norm_num,
      show (1 : ℚ) - 1/2 = 1/2 by norm_num]
  · have hdesc := hsorted hasc
    have hlist :
        ([⟨"e1", "hi", "hello", 1, "s", "t1", 2, 1 - 1/5⟩,
          ⟨"e2", "bye", "later", 2, "s", "t2", 2, 1 - 1/2⟩] :
          List EpisodeOut).map EpisodeOut.similarity =
        [4/5, 1/2] := by
      simp only [List.map_cons, List.map_nil]
      norm_num
    rw [hlist] at hdesc
    exact hdesc

/-! ## Episodic-memory consolidation (`firestore.py`) -/

/-- A memory item as read by `consolidate_memories` (only `type`, `key`,
`salience` and `ts` are inspected or written; a missing or empty `key`
is modelled as `""`, both being falsy to the `if key:` guard). -/
structure Mem where
  mtype : String
  key : String
  salience : ℚ
  ts : ℚ
  deriving DecidableEq, Repr

def isEpisodic (m : Mem) : Bool := m.mtype == "episodic"

/-- One step of the `key_counts` loop:
`key_counts[key] = key_counts.get(key, 0) + 1` for a doc with a truthy
key, nothing otherwise. -/
def countStep (acc : List (String × ℕ)) (d : String × Mem) :
    List (String × ℕ) :=
  if d.2.key = "" then acc
  else aset acc d.2.key ((alookup acc d.2.key).getD 0 + 1)

/-- The `key_counts` dict, built in stream order. -/
def keyCounts (docs : List (String × Mem)) : List (String × ℕ) :=
  docs.foldl countStep []

/-- `ORDER BY ts DESC LIMIT 1`: the first document carrying the maximal
timestamp (Firestore breaks exact ties by document name; with distinct
timestamps, as hypothesised where it matters, the tie-break is moot). -/
def mostRecent (docs : List (String × Mem)) : Option (String × Mem) :=
  docs.foldl
    (fun best d =>
      match best with
      | none => some d
      | some b => if b.2.ts < d.2.ts then some d else best) none

/-- `doc_ref.update({"type": "semantic", "salience": min(1.0,
count * 0.1)})`. -/
def promoteDoc (c : ℕ) (m : Mem) : Mem :=
  { m with mtype := "semantic", salience := min 1 ((c : ℚ) / 10) }

/-- One iteration of the promotion loop over `key_counts.items()`. -/
def promoteStep (t : ℤ) (sn : List (String × Mem) × ℕ)
    (kc : String × ℕ) : List (String × Mem) × ℕ :=
  if t ≤ (kc.2 : ℤ) then
    match mostRecent (sn.1.filter fun d =>
        d.2.key == kc.1 && isEpisodic d.2) with
    | none => sn
    | some (docId, m0) => (aset sn.1 docId (promoteDoc kc.2 m0), sn.2 + 1)
  else sn

/-- `consolidate_memories` from `firestore.py`: returns the resulting
collection together with `promoted_count` and `total_episodic`. -/
def consolidate_memories (store : List (String × Mem)) (t : ℤ) :
    List (String × Mem) × ℕ × ℕ :=
  (((keyCounts (store.filter fun d => isEpisodic d.2)).foldl
      (promoteStep t) (store, 0)).1,
   ((keyCounts (store.filter fun d => isEpisodic d.2)).foldl
      (promoteStep t) (store, 0)).2,
   (store.filter fun d => isEpisodic d.2).length)

/-- Three episodic items whose key is the empty string. -/
def emptyKeyStore : List (String × Mem) :=
  [("a", ⟨"episodic", "", 1, 1⟩), ("b", ⟨"episodic", "", 1, 2⟩),
   ("c", ⟨"episodic", "", 1, 3⟩)]

/-- C7 counterexample: a key occurring three times at threshold 3 is
*not* promoted when it is falsy — the `if key:` guard at line 403 of
`firestore.py` excludes it from `key_counts`, so the claim's "for every
key occurring at least t times" fails for the empty key: no item is
converted and `promoted_count` is 0, not 1. -/
theorem consolidate_skips_falsy_key :
    consolidate_memories emptyKeyStore 3 = (emptyKeyStore, 0, 3) := by
  rfl

/-! Association-list facts used by the consolidation proof. -/

theorem mem_aset_self {α : Type} (d : List (String × α)) (k : String)
    (v : α) : (k, v) ∈ aset d k v := by
  induction d with
  | nil => simp [aset]
  | cons hd tl ih =>
    obtain ⟨k', v'⟩ := hd
    by_cases h : k' = k
    · subst h; simp [aset]
    · simp only [aset, if_neg h]
      exact List.mem_cons_of_mem _ ih

theorem mem_aset_ne {α : Type} (d : List (String × α)) (k i : String)
    (v m : α) (hmem : (i, m) ∈ d) (hne : i ≠ k) :
    (i, m) ∈ aset d k v := by
  induction d with
  | nil => cases hmem
  | cons hd tl ih =>
    obtain ⟨k', v'⟩ := hd
    by_cases h : k' = k
    · subst h
      simp only [aset, if_pos rfl]
      rcases List.mem_cons.mp hmem with he | htl
      · injection he with he1 he2
        exact absurd he1 hne
      · exact List.mem_cons_of_mem _ htl
    · simp only [aset, if_neg h]
      rcases List.mem_cons.mp hmem with he | htl
      · rw [he]; exact List.mem_cons_self _ _
      · exact List.mem_cons_of_mem _ (ih htl)

theorem mem_keys_of_mem {α : Type} {d : List (String × α)}
    {k : String} {v : α} (h : (k, v) ∈ d) : k ∈ d.map Prod.fst :=
  List.mem_map_of_mem Prod.fst h

theorem amem_of_mem {α : Type} {d : List (String × α)} {k : String}
    {v : α} (h : (k, v) ∈ d) : amem d k = true := by
  unfold amem
  cases hl : alookup d k with
  | none =>
    rw [alookup_eq_none_iff] at hl
    exact absurd (mem_keys_of_mem h) hl
  | some v' => rfl

theorem alookup_of_mem_nodup {α : Type} {d : List (String × α)}
    {k : String} {v : α} (hnd : (d.map Prod.fst).Nodup)
    (h : (k, v) ∈ d) : alookup d k = some v := by
  induction d with
  | nil => cases h
  | cons hd tl ih =>
    obtain ⟨k', v'⟩ := hd
    rw [List.map_cons, List.nodup_cons] at hnd
    rcases List.mem_cons.mp h with he | htl
    · injection he with he1 he2
      subst he1; subst he2
      simp [alookup]
    · by_cases hk : k' = k
      · subst hk
        exact absurd (mem_keys_of_mem htl) hnd.1
      · simp only [alookup, if_neg hk]
        exact ih hnd.2 htl

theorem mem_of_alookup {α : Type} {d : List (String × α)} {k : String}
    {v : α} (h : alookup d k = some v) : (k, v) ∈ d := by
  induction d with
  | nil => cases h
  | cons hd tl ih =>
    obtain ⟨k', v'⟩ := hd
    by_cases hk : k' = k
    · subst hk
      simp only [alookup, if_pos rfl] at h
      injection h with h
      subst h
      exact List.mem_cons_self _ _
    · simp only [alookup, if_neg hk] at h
      exact List.mem_cons_of_mem _ (ih h)

/-- An entry of a nodup-keyed list that heads the list is the unique
entry with its key. -/
theorem mem_cons_key_eq {α : Type} {k : String} {v v' : α}
    {tl : List (String × α)}
    (hnd : (((k, v) :: tl).map Prod.fst).Nodup)
    (h : (k, v') ∈ (k, v) :: tl) : v' = v := by
  have := alookup_of_mem_nodup hnd h
  simp only [alookup, if_pos rfl] at this
  injection this with this
  exact this.symm

theorem filter_aset_not_pred (st : List (String × Mem)) (docId : String)
    (m0 m1 : Mem) (p : String × Mem → Bool)
    (hnd : (st.map Prod.fst).Nodup) (hmem : (docId, m0) ∈ st)
    (h0 : p (docId, m0) = false) (h1 : p (docId, m1) = false) :
    (aset st docId m1).filter p = st.filter p := by
  induction st with
  | nil => cases hmem
  | cons hd tl ih =>
    obtain ⟨i, m⟩ := hd
    by_cases hi : i = docId
    · subst hi
      have hm : m0 = m := mem_cons_key_eq hnd hmem
      subst hm
      rw [show aset ((i, m0) :: tl) i m1 = (i, m1) :: tl by
        simp [aset]]
      rw [List.filter_cons, List.filter_cons, h0, h1]
      simp
    · simp only [aset, if_neg hi]
      rw [List.map_cons, List.nodup_cons] at hnd
      have hmem' : (docId, m0) ∈ tl := by
        rcases List.mem_cons.mp hmem with he | htl
        · injection he with he1
          exact absurd he1.symm hi
        · exact htl
      rw [List.filter_cons, List.filter_cons, ih hnd.2 hmem']

theorem mostRecent_fold_mem (l : List (String × Mem)) :
    ∀ (acc : Option (String × Mem)) (x : String × Mem),
    l.foldl (fun best d =>
      match best with
      | none => some d
      | some b => if b.2.ts < d.2.ts then some d else best) acc =
      some x →
    acc = some x ∨ x ∈ l := by
  induction l with
  | nil =>
    intro acc x h
    exact Or.inl h
  | cons d tl ih =>
    intro acc x h
    rcases ih _ x h with hstep | htl
    · cases acc with
      | none =>
        simp only at hstep
        injection hstep with hstep
        exact Or.inr (List.mem_cons.mpr (Or.inl hstep.symm))
      | some b =>
        simp only at hstep
        by_cases hlt : b.2.ts < d.2.ts
        · rw [if_pos hlt] at hstep
          injection hstep with hstep
          exact Or.inr (List.mem_cons.mpr (Or.inl hstep.symm))
        · rw [if_neg hlt] at hstep
          exact Or.inl hstep
    · exact Or.inr (List.mem_cons_of_mem _ htl)

theorem mostRecent_mem {l : List (String × Mem)} {x : String × Mem}
    (h : mostRecent l = some x) : x ∈ l := by
  rcases mostRecent_fold_mem l none x h with hc | hm
  · cases hc
  · exact hm

theorem mostRecent_fold_ne_none (l : List (String × Mem)) :
    ∀ b : String × Mem,
    l.foldl (fun best d =>
      match best with
      | none => some d
      | some b => if b.2.ts < d.2.ts then some d else best)
      (some b) ≠ none := by
  induction l with
  | nil => intro b h; cases h
  | cons d tl ih =>
    intro b
    simp only [List.foldl_cons]
    by_cases hlt : b.2.ts < d.2.ts
    · rw [if_pos hlt]; exact ih d
    · rw [if_neg hlt]; exact ih b

theorem mostRecent_eq_none_iff (l : List (String × Mem)) :
    mostRecent l = none ↔ l = [] := by
  cases l with
  | nil => simp [mostRecent]
  | cons d tl =>
    simp only [mostRecent, List.foldl_cons]
    constructor
    · intro h
      exact absurd h (mostRecent_fold_ne_none tl d)
    · intro h; cases h

/-! Characterisation of `key_counts`. -/

theorem keyCounts_fold_alookup (docs : List (String × Mem)) :
    ∀ (acc : List (String × ℕ)) (k : String), k ≠ "" →
    alookup (docs.foldl countStep acc) k =
      (if (docs.filter fun d => d.2.key == k).length = 0 then
        alookup acc k
       else some ((alookup acc k).getD 0 +
         (docs.filter fun d => d.2.key == k).length)) := by
  induction docs with
  | nil =>
    intro acc k _
    simp
  | cons d tl ih =>
    intro acc k hk
    rw [List.foldl_cons, List.filter_cons]
    by_cases hd0 : d.2.key = ""
    · have hne : (d.2.key == k) = false := by
        rw [hd0]
        exact beq_false_of_ne (fun he => hk he.symm)
      rw [hne]
      simp only [Bool.false_eq_true, if_false]
      rw [show countStep acc d = acc from by
        unfold countStep; rw [if_pos hd0]]
      exact ih acc k hk
    · by_cases hdk : d.2.key = k
      · have hbeq : (d.2.key == k) = true := beq_iff_eq.mpr hdk
        rw [hbeq]
        simp only [if_true]
        rw [show countStep acc d =
            aset acc k ((alookup acc k).getD 0 + 1) from by
          unfold countStep; rw [if_neg hd0, hdk]]
        rw [ih (aset acc k ((alookup acc k).getD 0 + 1)) k hk]
        rw [alookup_aset_self]
        by_cases h0 : (tl.filter fun d => d.2.key == k).length = 0
        · rw [if_pos h0, if_neg (by simp [List.length_cons, h0])]
          rw [List.length_cons, h0]
        · rw [if_neg h0, if_neg (by simp [List.length_cons])]
          rw [List.length_cons]
          congr 1
          simp only [Option.getD_some]
          omega
      · have hbeq : (d.2.key == k) = false :=
          beq_false_of_ne hdk
        rw [hbeq]
        simp only [Bool.false_eq_true, if_false]
        rw [show countStep acc d =
            aset acc d.2.key ((alookup acc d.2.key).getD 0 + 1) from by
          unfold countStep; rw [if_neg hd0]]
        rw [ih _ k hk, alookup_aset_ne acc d.2.key k _ hdk]

theorem keyCounts_fold_empty (docs : List (String × Mem)) :
    ∀ acc : List (String × ℕ),
    alookup (docs.foldl countStep acc) "" = alookup acc "" := by
  induction docs with
  | nil => intro acc; rfl
  | cons d tl ih =>
    intro acc
    rw [List.foldl_cons]
    by_cases hd0 : d.2.key = ""
    · rw [show countStep acc d = acc from by
        unfold countStep; rw [if_pos hd0]]
      exact ih acc
    · rw [show countStep acc d =
          aset acc d.2.key ((alookup acc d.2.key).getD 0 + 1) from by
        unfold countStep; rw [if_neg hd0]]
      rw [ih _, alookup_aset_ne acc d.2.key "" _ hd0]

theorem keyCounts_fold_nodup (docs : List (String × Mem)) :
    ∀ acc : List (String × ℕ), (acc.map Prod.fst).Nodup →
    (((docs.foldl countStep acc)).map Prod.fst).Nodup := by
  induction docs with
  | nil => intro acc h; exact h
  | cons d tl ih =>
    intro acc h
    rw [List.foldl_cons]
    apply ih
    unfold countStep
    by_cases hd0 : d.2.key = ""
    · rw [if_pos hd0]; exact h
    · rw [if_neg hd0]
      exact nodup_keys_aset acc _ _ h

theorem keyCounts_nodup (docs : List (String × Mem)) :
    ((keyCounts docs).map Prod.fst).Nodup :=
  keyCounts_fold_nodup docs [] List.nodup_nil

/-- Membership in `key_counts`: exactly the non-empty keys, counted. -/
theorem keyCounts_mem_iff (docs : List (String × Mem)) (k : String)
    (c : ℕ) :
    (k, c) ∈ keyCounts docs ↔
      (k ≠ "" ∧ c = (docs.filter fun d => d.2.key == k).length ∧
       0 < c) := by
  constructor
  · intro h
    have hl := alookup_of_mem_nodup (keyCounts_nodup docs) h
    by_cases hk : k = ""
    · subst hk
      rw [show keyCounts docs = docs.foldl countStep [] from rfl,
        keyCounts_fold_empty docs []] at hl
      cases hl
    · refine ⟨hk, ?_, ?_⟩
      all_goals {
        rw [show keyCounts docs = docs.foldl countStep [] from rfl,
          keyCounts_fold_alookup docs [] k hk] at hl
        by_cases h0 : (docs.filter fun d => d.2.key == k).length = 0
        · rw [if_pos h0] at hl; cases hl
        · rw [if_neg h0] at hl
          injection hl with hl
          simp only [alookup, Option.getD_none] at hl
          omega }
  · rintro ⟨hk, hc, hpos⟩
    apply mem_of_alookup
    rw [show keyCounts docs = docs.foldl countStep [] from rfl,
      keyCounts_fold_alookup docs [] k hk]
    rw [if_neg (by omega)]
    simp only [alookup, Option.getD_none]
    rw [hc, Nat.zero_add]

/-- Characterisation of the promotion loop over `key_counts.items()`:
the promotion count, preservation of document ids, untouched documents,
and the per-key promotion effect. -/
theorem promoteFold_spec (t : ℤ) :
    ∀ (counts : List (String × ℕ)) (st : List (String × Mem)) (n : ℕ),
    (st.map Prod.fst).Nodup →
    (counts.map Prod.fst).Nodup →
    (∀ kc ∈ counts,
      (st.filter fun d => d.2.key == kc.1 && isEpisodic d.2) ≠ []) →
    (counts.foldl (promoteStep t) (st, n)).2 =
      n + (counts.filter fun kc => decide (t ≤ (kc.2 : ℤ))).length ∧
    ((counts.foldl (promoteStep t) (st, n)).1.map Prod.fst =
      st.map Prod.fst) ∧
    (∀ docId m, (docId, m) ∈ st →
      (¬ ∃ c, (m.key, c) ∈ counts ∧ t ≤ (c : ℤ) ∧
        (mostRecent (st.filter fun d =>
          d.2.key == m.key && isEpisodic d.2)).map Prod.fst =
          some docId) →
      (docId, m) ∈ (counts.foldl (promoteStep t) (st, n)).1) ∧
    (∀ k c, (k, c) ∈ counts → t ≤ (c : ℤ) →
      ∃ docId m0,
        mostRecent (st.filter fun d =>
          d.2.key == k && isEpisodic d.2) = some (docId, m0) ∧
        (docId, m0) ∈ st ∧
        (docId, promoteDoc c m0) ∈
          (counts.foldl (promoteStep t) (st, n)).1) := by
  intro counts
  induction counts with
  | nil =>
    intro st n hnd hkeys hne
    exact ⟨by simp, rfl, fun docId m hm _ => hm,
      fun k c hkc => absurd hkc (by simp)⟩
  | cons kc rest ih =>
    obtain ⟨k0, c0⟩ := kc
    intro st n hnd hkeys hne
    rw [List.map_cons, List.nodup_cons] at hkeys
    rw [List.foldl_cons]
    by_cases hq : t ≤ (c0 : ℤ)
    · -- the head key qualifies and is promoted
      have hneKc := hne (k0, c0) (List.mem_cons_self _ _)
      obtain ⟨x, hx⟩ : ∃ x, mostRecent (st.filter fun d =>
          d.2.key == k0 && isEpisodic d.2) = some x := by
        cases hmx : mostRecent (st.filter fun d =>
            d.2.key == k0 && isEpisodic d.2) with
        | none =>
          rw [mostRecent_eq_none_iff] at hmx
          exact absurd hmx hneKc
        | some x => exact ⟨x, rfl⟩
      obtain ⟨docId0, m0⟩ := x
      rw [show promoteStep t (st, n) (k0, c0) =
          (aset st docId0 (promoteDoc c0 m0), n + 1) from by
        unfold promoteStep; rw [if_pos hq, hx]]
      have hm0filter := mostRecent_mem hx
      have hm0st : (docId0, m0) ∈ st :=
        (List.mem_filter.mp hm0filter).1
      have hm0props := (List.mem_filter.mp hm0filter).2
      rw [Bool.and_eq_true, beq_iff_eq] at hm0props
      have hm0key : m0.key = k0 := hm0props.1
      have hids' : (aset st docId0 (promoteDoc c0 m0)).map Prod.fst =
          st.map Prod.fst := by
        rw [keys_aset, if_pos (amem_of_mem hm0st)]
      have hnd' : ((aset st docId0 (promoteDoc c0 m0)).map
          Prod.fst).Nodup := by rw [hids']; exact hnd
      have hfilter_inv : ∀ k', k' ≠ k0 →
          (aset st docId0 (promoteDoc c0 m0)).filter
            (fun d => d.2.key == k' && isEpisodic d.2) =
          st.filter (fun d => d.2.key == k' && isEpisodic d.2) := by
        intro k' hk'
        apply filter_aset_not_pred st docId0 m0 (promoteDoc c0 m0) _
          hnd hm0st
        · simp only [Bool.and_eq_false_iff, beq_eq_false_iff_ne]
          exact Or.inl (by rw [hm0key]; exact fun h => hk' h.symm)
        · simp only [Bool.and_eq_false_iff, beq_eq_false_iff_ne]
          exact Or.inl (by
            show (promoteDoc c0 m0).key ≠ k'
            unfold promoteDoc
            simp only
            rw [hm0key]
            exact fun h => hk' h.symm)
      have hne' : ∀ kc' ∈ rest,
          ((aset st docId0 (promoteDoc c0 m0)).filter
            fun d => d.2.key == kc'.1 && isEpisodic d.2) ≠ [] := by
        intro kc' h'
        obtain ⟨kk, kv⟩ := kc'
        have hkne : kk ≠ k0 := by
          intro he
          exact hkeys.1 (by rw [← he]; exact mem_keys_of_mem h')
        show ((aset st docId0 (promoteDoc c0 m0)).filter
          fun d => d.2.key == kk && isEpisodic d.2) ≠ []
        rw [hfilter_inv kk hkne]
        exact hne (kk, kv) (List.mem_cons_of_mem _ h')
      obtain ⟨ih1, ih2, ih3, ih4⟩ :=
        ih (aset st docId0 (promoteDoc c0 m0)) (n + 1) hnd' hkeys.2 hne'
      refine ⟨?_, ?_, ?_, ?_⟩
      · rw [ih1, List.filter_cons]
        simp only [decide_eq_true_eq, if_pos hq, List.length_cons]
        omega
      · rw [ih2, hids']
      · intro docId m hm hno
        have hdne : docId ≠ docId0 := by
          intro he
          subst he
          have hmm : m = m0 := by
            have h1 := alookup_of_mem_nodup hnd hm
            have h2 := alookup_of_mem_nodup hnd hm0st
            rw [h1] at h2
            injection h2
          subst hmm
          apply hno
          refine ⟨c0, ?_, hq, ?_⟩
          · rw [hm0key]
            exact List.mem_cons_self _ _
          · rw [hm0key, hx]
            rfl
        have hm' : (docId, m) ∈ aset st docId0 (promoteDoc c0 m0) :=
          mem_aset_ne st docId0 docId _ m hm hdne
        apply ih3 docId m hm'
        rintro ⟨c, hcrest, hct, hchosen⟩
        by_cases hkey : m.key = k0
        · exact hkeys.1 (by rw [← hkey]; exact mem_keys_of_mem hcrest)
        · exact hno ⟨c, List.mem_cons_of_mem _ hcrest, hct, by
            rw [← hfilter_inv m.key hkey]; exact hchosen⟩
      · intro k c hkc hct
        rcases List.mem_cons.mp hkc with heq | hrest
        · injection heq with he1 he2
          subst he1
          subst he2
          refine ⟨docId0, m0, hx, hm0st, ?_⟩
          apply ih3 docId0 (promoteDoc c m0)
            (mem_aset_self st docId0 _)
          rintro ⟨c', hcrest, _, _⟩
          apply hkeys.1
          have : (promoteDoc c m0).key = k := by
            unfold promoteDoc; simp only; exact hm0key
          rw [← this]
          exact mem_keys_of_mem hcrest
        · have hkne : k ≠ k0 := by
            intro he
            exact hkeys.1 (by rw [← he]; exact mem_keys_of_mem hrest)
          obtain ⟨docId1, m1, hmr, hmem1, hfin⟩ := ih4 k c hrest hct
          rw [hfilter_inv k hkne] at hmr
          exact ⟨docId1, m1, hmr,
            (List.mem_filter.mp (mostRecent_mem hmr)).1, hfin⟩
    · -- the head key does not qualify: nothing happens
      rw [show promoteStep t (st, n) (k0, c0) = (st, n) from by
        unfold promoteStep; rw [if_neg hq]]
      obtain ⟨ih1, ih2, ih3, ih4⟩ := ih st n hnd hkeys.2
        (fun kc' h' => hne kc' (List.mem_cons_of_mem _ h'))
      refine ⟨?_, ih2, ?_, ?_⟩
      · rw [ih1, List.filter_cons]
        simp only [decide_eq_true_eq, if_neg hq]
      · intro docId m hm hno
        apply ih3 docId m hm
        rintro ⟨c, hcrest, hct, hchosen⟩
        exact hno ⟨c, List.mem_cons_of_mem _ hcrest, hct, hchosen⟩
      · intro k c hkc hct
        rcases List.mem_cons.mp hkc with heq | hrest
        · injection heq with he1 he2
          subst he1; subst he2
          exact absurd hct hq
        · exact ih4 k c hrest hct

/-- C7 (amended): `consolidate_memories` scans only the episodic items
(`total_episodic` is their number), groups them by key *skipping falsy
(empty or missing) keys*, and for every non-empty key occurring at least
`t` times promotes exactly one item — the most recent episodic one with
that key — to type `"semantic"` with salience `min(1, count * 0.1)`;
every document not so chosen is returned unchanged, and
`promoted_count` is the number of distinct non-empty keys whose count
reaches the threshold. -/
theorem consolidate_promotion_policy (store : List (String × Mem))
    (t : ℤ) (hnd : (store.map Prod.fst).Nodup) :
    (consolidate_memories store t).2.2 =
      (store.filter fun d => isEpisodic d.2).length ∧
    (consolidate_memories store t).2.1 =
      ((keyCounts (store.filter fun d => isEpisodic d.2)).filter
        fun kc => decide (t ≤ (kc.2 : ℤ))).length ∧
    (∀ k c,
      (k, c) ∈ keyCounts (store.filter fun d => isEpisodic d.2) ↔
      (k ≠ "" ∧
       c = ((store.filter fun d => isEpisodic d.2).filter
         fun d => d.2.key == k).length ∧ 0 < c)) ∧
    (∀ docId m, (docId, m) ∈ store →
      (¬ ∃ c, (m.key, c) ∈ keyCounts (store.filter fun d =>
          isEpisodic d.2) ∧ t ≤ (c : ℤ) ∧
        (mostRecent (store.filter fun d =>
          d.2.key == m.key && isEpisodic d.2)).map Prod.fst =
          some docId) →
      (docId, m) ∈ (consolidate_memories store t).1) ∧
    (∀ k c,
      (k, c) ∈ keyCounts (store.filter fun d => isEpisodic d.2) →
      t ≤ (c : ℤ) →
      ∃ docId m0,
        mostRecent (store.filter fun d =>
          d.2.key == k && isEpisodic d.2) = some (docId, m0) ∧
        (docId, m0) ∈ store ∧
        (docId, promoteDoc c m0) ∈ (consolidate_memories store t).1) := by
  have hne : ∀ kc ∈ keyCounts (store.filter fun d => isEpisodic d.2),
      (store.filter fun d => d.2.key == kc.1 && isEpisodic d.2) ≠
        [] := by
    intro kc hkc
    obtain ⟨kk, kv⟩ := kc
    obtain ⟨hk, hc, hpos⟩ :=
      (keyCounts_mem_iff (store.filter fun d => isEpisodic d.2) kk
        kv).mp hkc
    rw [hc] at hpos
    rw [List.length_pos] at hpos
    obtain ⟨d, hd⟩ := List.exists_mem_of_ne_nil _ hpos
    have hd1 := List.mem_filter.mp hd
    have hd2 := List.mem_filter.mp hd1.1
    apply List.ne_nil_of_mem (a := d)
    rw [List.mem_filter]
    exact ⟨hd2.1, by rw [Bool.and_eq_true]; exact ⟨hd1.2, hd2.2⟩⟩
  obtain ⟨h1, h2, h3, h4⟩ := promoteFold_spec t
    (keyCounts (store.filter fun d => isEpisodic d.2)) store 0 hnd
    (keyCounts_nodup _) hne
  refine ⟨rfl, ?_, keyCounts_mem_iff _, h3, h4⟩
  rw [show (consolidate_memories store t).2.1 =
    ((keyCounts (store.filter fun d => isEpisodic d.2)).foldl
      (promoteStep t) (store, 0)).2 from rfl, h1, Nat.zero_add]

/-- Three episodic items sharing the key `"likes_dinosaurs"`, with
distinct timestamps. -/
def dinoStore : List (String × Mem) :=
  [("a", ⟨"episodic", "likes_dinosaurs", 1, 1⟩),
   ("b", ⟨"episodic", "likes_dinosaurs", 1, 2⟩),
   ("c", ⟨"episodic", "likes_dinosaurs", 1, 3⟩)]

theorem consolidate_promotion_policy_witness :
    (consolidate_memories dinoStore 3).2.1 = 1 ∧
    (consolidate_memories dinoStore 3).2.2 = 3 ∧
    ("c", (⟨"semantic", "likes_dinosaurs", 3/10, 3⟩ : Mem)) ∈
      (consolidate_memories dinoStore 3).1 ∧
    ("a", (⟨"episodic", "likes_dinosaurs", 1, 1⟩ : Mem)) ∈
      (consolidate_memories dinoStore 3).1 := by
  have hnd : (dinoStore.map Prod.fst).Nodup := by
    simp [dinoStore]
  obtain ⟨h1, h2, h3, h4, h5⟩ :=
    consolidate_promotion_policy dinoStore 3 hnd
  have hmost : mostRecent (dinoStore.filter fun d =>
      d.2.key == "likes_dinosaurs" && isEpisodic d.2) =
      some ("c", ⟨"episodic", "likes_dinosaurs", 1, 3⟩) := by
    simp [dinoStore, isEpisodic, mostRecent]
    norm_num
  have hmem : ("likes_dinosaurs", 3) ∈
      keyCounts (dinoStore.filter fun d => isEpisodic d.2) := by
    apply (h3 "likes_dinosaurs" 3).mpr
    refine ⟨by simp, ?_, by omega⟩
    simp [dinoStore, isEpisodic]
  refine ⟨?_, ?_, ?_, ?_⟩
  · rw [h2]
    rw [show keyCounts (dinoStore.filter fun d => isEpisodic d.2) =
      [("likes_dinosaurs", 3)] from rfl]
    rfl
  · rw [h1]; rfl
  · obtain ⟨docId, m0, hmr, hmem0, hfin⟩ :=
      h5 "likes_dinosaurs" 3 hmem (by omega)
    rw [hmost] at hmr
    injection hmr with hmr
    injection hmr with hid hm0
    subst hid
    subst hm0
    have hp : promoteDoc 3 (⟨"episodic", "likes_dinosaurs", 1, 3⟩ :
        Mem) = ⟨"semantic", "likes_dinosaurs", 3/10, 3⟩ := by
      unfold promoteDoc
      simp only [Mem.mk.injEq, true_and, and_true]
      norm_num
    rw [hp] at hfin
    exact hfin
  · apply h4 "a" ⟨"episodic", "likes_dinosaurs", 1, 1⟩
      (List.mem_cons_self _ _)
    rintro ⟨c, hc, hct, hch⟩
    simp only at hch
    rw [hmost] at hch
    simp at hch

end MemoBot
